import Mathlib

/-!
# OPRF participants (go/oprf/oprf.go) and hash to curve (go/oprf/groups/ecgroup/h2c.go)

A shallow embedding of the client and server operations of the OPRF protocol,
of the interfaces they are written against, and of the hash-to-curve code.

Conventions of the embedding

* `[]byte` is `Bytes`, a list of naturals.
* `*big.Int` values that the code only passes along (a key held in a struct,
  the scalar handed to `ScalarMult`) are `Option Int`, `none` being `nil`;
  scalars on which the code itself calls a method are `Int`.
* A Go `(value, error)` result whose value is a pointer or an interface is an
  `Except Error`; `SecretKey.New`, which returns a struct by value, keeps the
  Go pair.
* The random source behind `UniformFieldElement` is an explicit state `R`
  threaded through every operation that can reach the sampler.
* The group packages are not part of this file set: the `GroupElement` and
  `PrimeOrderGroup` interfaces, the `Ciphersuite` record and
  `Ciphersuite.FromString` are parameters of the development. Their methods
  are total: a call returns a value or an error.
-/

namespace OPRF

/-- Byte strings. -/
abbrev Bytes := List Nat

/-- The error values the participants can return: the three declared in
oprf.go, the three of package oerr that the hash-to-curve code names, and
`external n` for any other error a collaborator reports (for instance a
failure of the random source). -/
inductive Error where
  | ErrOPRFCiphersuiteUnsupportedFunction
  | ErrOPRFUnimplementedFunctionClient
  | ErrOPRFUnimplementedFunctionServer
  | ErrInvalidGroupElement
  | ErrUnsupportedGroup
  | ErrIncompatibleGroupParams
  | external (code : Nat)
  deriving DecidableEq, Repr

deriving instance DecidableEq for Except

/-- The standard library interface hash.Hash, as far as Finalize uses it: an
object that has absorbed `written` and whose digest over the absorbed data is
`digest written`. For a keyed hash the key is bound inside `digest`. -/
structure Hash where
  digest : Bytes → Bytes
  written : Bytes

/-- Method Write of hash.Hash: absorbs more data. -/
def Hash.Write (h : Hash) (p : Bytes) : Hash :=
  { h with written := h.written ++ p }

/-- Method Sum of hash.Hash: appends the current digest to `b` and returns the
resulting slice; `b` itself is not absorbed. -/
def Hash.Sum (h : Hash) (b : Bytes) : Bytes :=
  b ++ h.digest h.written

/-- The interface gg.GroupElement, restricted to the two methods oprf.go
calls. The scalar is a `*big.Int`, hence an `Option Int`. -/
class GroupElement (G : Type) where
  ScalarMult : G → Option Int → Except Error G
  Serialize : G → Except Error Bytes

/-- The interface gg.PrimeOrderGroup, restricted to the methods oprf.go calls.
`UniformFieldElement` is the only operation that reaches the random source. -/
structure PrimeOrderGroup (G R : Type) where
  Order : Int
  UniformFieldElement : R → Except Error Int × R
  GeneratorMult : Option Int → Except Error G
  EncodeToGroup : Bytes → Except Error G

/-- The record gg.Ciphersuite: `pog`, `H2`, `H3` and `verifiable` are what the
accessors POG(), H2(), H3 and Verifiable() return. `H3` is the plain hash,
`H2 H3 key` the keyed hash object built from it. -/
structure Ciphersuite (G R : Type) where
  name : String
  pog : PrimeOrderGroup G R
  H3 : Bytes → Bytes
  H2 : (Bytes → Bytes) → Bytes → Hash
  verifiable : Bool

/-- Struct SecretKey: the scalar `K` and its public commitment `PubKey`. -/
structure SecretKey (G : Type) where
  K : Option Int
  PubKey : Option G

/-- The zero value `SecretKey{}`. -/
def SecretKey.zero {G : Type} : SecretKey G :=
  { K := none, PubKey := none }

/-- Struct Server. -/
structure Server (G R : Type) where
  ciph : Ciphersuite G R
  sk : SecretKey G

/-- Struct Client. -/
structure Client (G R : Type) where
  ciph : Ciphersuite G R
  pk : Option G

/-- The interface Participant, with its two implementations. -/
inductive Participant (G R : Type) where
  | server (s : Server G R)
  | client (c : Client G R)

/-- The standard library big.Int.ModInverse(g, n) for a modulus `n ≠ 0`: the
multiplicative inverse of `g` in the ring of integers modulo `n`, in the range
`0 ≤ z < |n|`, or nil when `g` and `n` are not relatively prime. -/
def ModInverse (g n : Int) : Option Int :=
  ((List.range n.natAbs).find? (fun (z : Nat) => decide ((g * (z : Int)) % n = 1 % n))).map
    (fun (z : Nat) => (z : Int))

variable {G R : Type}

/-- Method SecretKey.New (oprf.go, lines 36-48). -/
def SecretKey.New (_sk : SecretKey G) (pog : PrimeOrderGroup G R) (rand : R) :
    (SecretKey G × Option Error) × R :=
  match pog.UniformFieldElement rand with
  | (.error err, rand1) => ((SecretKey.zero, some err), rand1)
  | (.ok randInt, rand1) =>
    match pog.GeneratorMult (some randInt) with
    | .error err => ((SecretKey.zero, some err), rand1)
    | .ok Y => (({ K := some randInt, PubKey := some Y }, none), rand1)

/-- Method Server.Setup (oprf.go, lines 76-90). `FromString` stands for
`gg.Ciphersuite{}.FromString`, which resolves the name without sampling. -/
def Server.Setup (FromString : String → PrimeOrderGroup G R → Except Error (Ciphersuite G R))
    (s : Server G R) (ciphersuite : String) (pogInit : PrimeOrderGroup G R) (rand : R) :
    Except Error (Participant G R) × R :=
  match FromString ciphersuite pogInit with
  | .error err => (.error err, rand)
  | .ok ciph =>
    match SecretKey.New SecretKey.zero ciph.pog rand with
    | ((_, some err), rand1) => (.error err, rand1)
    | ((sk, none), rand1) => (.ok (.server { s with ciph := ciph, sk := sk }), rand1)

/-- Method Server.Eval (oprf.go, lines 96-109). -/
def Server.Eval [GroupElement G] (s : Server G R) (sk : SecretKey G) (M : G) :
    Except Error G :=
  let ciph := s.ciph
  if !ciph.verifiable then
    match GroupElement.ScalarMult M sk.K with
    | .error err => .error err
    | .ok Z => .ok Z
  else
    .error .ErrOPRFCiphersuiteUnsupportedFunction

/-- Method Server.Blind (oprf.go, lines 112-114). -/
def Server.Blind (_s : Server G R) (_x : Bytes) : Except Error (G × Int) :=
  .error .ErrOPRFUnimplementedFunctionServer

/-- Method Server.Unblind (oprf.go, lines 117-119). -/
def Server.Unblind (_s : Server G R) (_Z : G) (_r : Int) : Except Error G :=
  .error .ErrOPRFUnimplementedFunctionServer

/-- Method Server.Finalize (oprf.go, lines 122-124). -/
def Server.Finalize (_s : Server G R) (_N : G) (_x _aux : Bytes) : Except Error Bytes :=
  .error .ErrOPRFUnimplementedFunctionServer

/-- Method Client.Setup (oprf.go, lines 140-147). The body never calls the
sampler, so the random source comes back as it was received. -/
def Client.Setup (FromString : String → PrimeOrderGroup G R → Except Error (Ciphersuite G R))
    (c : Client G R) (ciphersuite : String) (pogInit : PrimeOrderGroup G R) (rand : R) :
    Except Error (Participant G R) × R :=
  match FromString ciphersuite pogInit with
  | .error err => (.error err, rand)
  | .ok ciph => (.ok (.client { c with ciph := ciph }), rand)

/-- Method Client.Blind (oprf.go, lines 151-174). The result of the check
multiplication `P.ScalarMult(rInv)` is bound and then dropped, as in the
source. -/
def Client.Blind [GroupElement G] (c : Client G R) (x : Bytes) (rand : R) :
    Except Error (G × Int) × R :=
  let pog := c.ciph.pog
  match pog.EncodeToGroup x with
  | .error err => (.error err, rand)
  | .ok T =>
    match pog.UniformFieldElement rand with
    | (.error err, rand1) => (.error err, rand1)
    | (.ok r, rand1) =>
      match GroupElement.ScalarMult T (some r) with
      | .error err => (.error err, rand1)
      | .ok P =>
        let rInv := ModInverse r pog.Order
        let _Tchk := GroupElement.ScalarMult P rInv
        (.ok (P, r), rand1)

/-- Method Client.Unblind (oprf.go, lines 179-194). -/
def Client.Unblind [GroupElement G] (c : Client G R) (Z : G) (r : Int) : Except Error G :=
  let ciph := c.ciph
  let pog := c.ciph.pog
  let p := pog.Order
  if ciph.verifiable then
    .error .ErrOPRFCiphersuiteUnsupportedFunction
  else
    let rInv := ModInverse r p
    match GroupElement.ScalarMult Z rInv with
    | .error err => .error err
    | .ok N => .ok N

/-- The label `"oprf_derive_output"` as bytes. -/
def DST : Bytes :=
  [111, 112, 114, 102, 95, 100, 101, 114, 105, 118, 101, 95, 111, 117, 116, 112, 117, 116]

/-- Method Client.Finalize (oprf.go, lines 197-214). -/
def Client.Finalize [GroupElement G] (c : Client G R) (N : G) (x aux : Bytes) :
    Except Error Bytes :=
  let ciph := c.ciph
  let hmacShared := ciph.H2 ciph.H3 DST
  match GroupElement.Serialize N with
  | .error err => .error err
  | .ok NBytes =>
    let hmacShared := hmacShared.Write x
    let dk := hmacShared.Sum NBytes
    let hmacOut := ciph.H2 ciph.H3 dk
    let y := hmacOut.Sum aux
    .ok y

/-- Method Client.Eval (oprf.go, lines 217-219). -/
def Client.Eval (_c : Client G R) (_sk : SecretKey G) (_M : G) : Except Error G :=
  .error .ErrOPRFUnimplementedFunctionClient

/-! ## Expressions of the specification -/

/-- The keyed hash of a ciphersuite as a function `KeyedHash(key, data)`: a
fresh object keyed with `key` absorbs `data`, and its digest is read out with
an empty prefix. -/
def KeyedHash (ciph : Ciphersuite G R) (key data : Bytes) : Bytes :=
  ((ciph.H2 ciph.H3 key).Write data).Sum []

/-- The two-step derivation in the words of the specification:
`dk = KeyedHash(key = Serialize(N), data = x)`, then
`y = KeyedHash(key = dk, data = aux)`. -/
def FinalizeSpec [GroupElement G] (c : Client G R) (N : G) (x aux : Bytes) :
    Except Error Bytes :=
  match GroupElement.Serialize N with
  | .error err => .error err
  | .ok NBytes =>
    let dk := KeyedHash c.ciph NBytes x
    .ok (KeyedHash c.ciph dk aux)

/-- The scalar multiplication of `G` is an action of the integers modulo `p`:
multiplying twice is multiplying by the product, and the outcome depends on
the scalar only through its residue. -/
structure ScalarAction (G : Type) [GroupElement G] (p : Int) : Prop where
  mul : ∀ (g : G) (a b : Int),
    (GroupElement.ScalarMult g (some a) >>= fun h => GroupElement.ScalarMult h (some b))
      = GroupElement.ScalarMult g (some (a * b))
  residue : ∀ (g : G) (a b : Int), a % p = b % p →
    GroupElement.ScalarMult g (some a) = GroupElement.ScalarMult g (some b)

/-- The protocol run after blinding, for a blinded element `P` and its blind
`r`: `Finalize(Unblind(Eval(sk, P), r), x, aux)`. -/
def unblindedRun [GroupElement G] (s : Server G R) (c : Client G R) (sk : SecretKey G)
    (P : G) (r : Int) (x aux : Bytes) : Except Error Bytes := do
  let Z ← s.Eval sk P
  let N ← c.Unblind Z r
  c.Finalize N x aux

/-- The blinded protocol run of the correctness invariant, for a fixed blind
`r`: `Finalize(Unblind(Eval(sk, P), r), x, aux)` with
`P = ScalarMult(EncodeToGroup(x), r)`. -/
def blindedRun [GroupElement G] (s : Server G R) (c : Client G R) (sk : SecretKey G)
    (r : Int) (x aux : Bytes) : Except Error Bytes := do
  let T ← c.ciph.pog.EncodeToGroup x
  let P ← GroupElement.ScalarMult T (some r)
  unblindedRun s c sk P r x aux

/-- The direct evaluation of the correctness invariant:
`Finalize(ScalarMult(EncodeToGroup(x), k), x, aux)`. -/
def directRun [GroupElement G] (c : Client G R) (k : Int) (x aux : Bytes) :
    Except Error Bytes := do
  let T ← c.ciph.pog.EncodeToGroup x
  let N ← GroupElement.ScalarMult T (some k)
  c.Finalize N x aux

/-! ## A small concrete instance: the integers modulo 7 -/

/-- An element of the additive group of integers modulo 7. -/
structure Z7 where
  v : Int
  deriving DecidableEq, Repr

/-- An element is valid when its representative is reduced. -/
def Z7.IsValid (g : Z7) : Bool :=
  decide (0 ≤ g.v) && decide (g.v < 7)

instance instGroupElementZ7 : GroupElement Z7 where
  ScalarMult g s :=
    if g.IsValid then
      match s with
      | none => .error (.external 2)
      | some a => .ok ⟨(g.v * a) % 7⟩
    else .error .ErrInvalidGroupElement
  Serialize g :=
    if g.IsValid then .ok [g.v.toNat] else .error .ErrInvalidGroupElement

/-- A group over `Z7` whose random source is a counter of the samples that are
left: sampling fails once the counter is used up. Encoding rejects the empty
input. -/
def toyPog : PrimeOrderGroup Z7 Nat where
  Order := 7
  UniformFieldElement := fun n =>
    if n = 0 then (.error (.external 1), 0) else (.ok (((n % 6 : Nat) : Int) + 1), n - 1)
  GeneratorMult := fun s => GroupElement.ScalarMult (⟨1⟩ : Z7) s
  EncodeToGroup := fun x =>
    if x = [] then .error (.external 3) else .ok ⟨((x.sum % 6 : Nat) : Int) + 1⟩

/-- A faulty variant of `toyPog` whose encoder and generator are the
unreduced, hence invalid, element 9. -/
def faultyPog : PrimeOrderGroup Z7 Nat :=
  { toyPog with
    GeneratorMult := fun s => GroupElement.ScalarMult (⟨9⟩ : Z7) s
    EncodeToGroup := fun _ => .ok ⟨9⟩ }

/-- A one-byte hash. -/
def toyH3 : Bytes → Bytes :=
  fun m => [m.foldl (fun acc b => (acc * 31 + b + 1) % 251) 7]

/-- A keyed hash object in the nested style of HMAC. -/
def toyH2 : (Bytes → Bytes) → Bytes → Hash :=
  fun h key => { digest := fun m => h (key ++ h m), written := [] }

/-- The ciphersuite over `toyPog`, verifiable or not. -/
def toyCiph (v : Bool) : Ciphersuite Z7 Nat where
  name := if v then "VOPRF-TOY" else "OPRF-TOY"
  pog := toyPog
  H3 := toyH3
  H2 := toyH2
  verifiable := v

/-- A name lookup accepting exactly the two names of `toyCiph`. -/
def toyFromString : String → PrimeOrderGroup Z7 Nat → Except Error (Ciphersuite Z7 Nat) :=
  fun name pogInit =>
    if name = "OPRF-TOY" then .ok { toyCiph false with pog := pogInit }
    else if name = "VOPRF-TOY" then .ok { toyCiph true with pog := pogInit }
    else .error .ErrUnsupportedGroup

/-- A server over the toy ciphersuite, verifiable or not, holding the key 3. -/
def toyServer (v : Bool) : Server Z7 Nat :=
  { ciph := toyCiph v, sk := { K := some 3, PubKey := some ⟨3⟩ } }

/-- A client over the toy ciphersuite, verifiable or not, without public key. -/
def toyClient (v : Bool) : Client Z7 Nat :=
  { ciph := toyCiph v, pk := none }

/-- A non-verifiable client over `faultyPog`. -/
def faultyClient : Client Z7 Nat :=
  { ciph := { toyCiph false with pog := faultyPog }, pk := none }

/-- The toy ciphersuite with its keyed hash replaced under the one key `[3]`,
where every digest becomes `[0]`. -/
def rekeyedCiph : Ciphersuite Z7 Nat :=
  { toyCiph false with
    H2 := fun h key => if key = [3] then { digest := fun _ => [0], written := [] }
      else toyH2 h key }

/-- A non-verifiable client over `rekeyedCiph`. -/
def rekeyedClient : Client Z7 Nat :=
  { ciph := rekeyedCiph, pk := none }

/-! ## Hash to curve (go/oprf/groups/ecgroup/h2c.go)

The functions of this file can end in a run-time panic (an index out of
range, a method call on a nil `*big.Int`, a zero modulus), so they return an
`Except Panic`. A Go `(Point, error)` result is kept as a pair, since the code
returns the empty Point together with an error. The packages utils and
constants, the types Point and GroupCurve and the hash-to-curve library are
not among the sources. -/

/-- The run-time panics the hash-to-curve code can raise. -/
inductive Panic where
  | indexOutOfRange
  | nilDereference
  | divisionByZero
  deriving DecidableEq, Repr

/-- Modelled from the spec: the curve record GroupCurve of package ecgroup,
which is not among the sources; only its name is used here. -/
structure GroupCurve where
  Name : String
  deriving DecidableEq, Repr

/-- Modelled from the spec: the type Point of package ecgroup, which is not
among the sources: an affine coordinate pair tagged with the curve it belongs
to. The fields are pointers, nil in the empty Point. -/
structure Point where
  pog : Option GroupCurve
  X : Option Int
  Y : Option Int
  deriving DecidableEq, Repr

/-- The empty value `Point{}`. -/
def Point.empty : Point :=
  { pog := none, X := none, Y := none }

/-- Modelled from the spec: the constructor `Point{}.New(gc)` of package
ecgroup, which is not among the sources: a point of the curve `gc` with
allocated coordinates. -/
def Point.New (gc : GroupCurve) : Point :=
  { pog := some gc, X := some 0, Y := some 0 }

/-- The standard library big.Int.Mod(x, m): the Euclidean modulus, a panic for
a zero modulus. -/
def Mod (x m : Int) : Except Panic Int :=
  if m = 0 then .error .divisionByZero else .ok (x % m)

/-- The standard library big.Int.Exp(x, y, m): `x**y mod |m|` with a result in
`[0, |m|)`; for `m = 0` it is `x**y`, and 1 when `y ≤ 0`; for `y < 0` and
`m ≠ 0` the base is inverted first, and the result is nil when there is no
inverse. A nil result is dereferenced by every caller in this file, so it is
the panic here. -/
def Exp (x y m : Int) : Except Panic Int :=
  if m = 0 then .ok (if y ≤ 0 then 1 else x ^ y.toNat)
  else if y < 0 then
    match ModInverse x m with
    | none => .error .nilDereference
    | some inverse => .ok (inverse ^ y.natAbs % m)
  else .ok (x ^ y.toNat % m)

/-- The standard library big.Int.Cmp(x, y): -1, 0 or +1. -/
def Cmp (x y : Int) : Int :=
  if x < y then -1 else if x = y then 0 else 1

/-- A `*big.Int` that is used as an operand: nil panics. -/
def deref (x : Option Int) : Except Panic Int :=
  match x with
  | none => .error .nilDereference
  | some v => .ok v

/-- Modelled from the spec: utils.Cmov, which is not among the sources, the
constant-time conditional move done by a multiply-and-add mask:
`CMOV(a, b, c)` is `b` when `c` is 1 and `a` when `c` is 0. -/
def Cmov (a b c : Int) : Int :=
  c * b + (1 - c) * a

/-- Modelled from the spec: utils.EqualsToBigInt, which is not among the
sources: 1 when the two integers are equal and 0 otherwise. -/
def EqualsToBigInt (a b : Int) : Int :=
  if a = b then 1 else 0

/-- Modelled from the spec: utils.Inv0, which is not among the sources, the
modular inverse including the zero case: the inverse of `x` modulo `p` in
`[0, p)`, and 0 when `x` has no inverse. -/
def Inv0 (x p : Int) : Int :=
  match ModInverse x p with
  | some z => z
  | none => 0

/-- Modelled from the spec: utils.SgnCmp, which is not among the sources, the
sign comparison: 1 when `sgn0` gives `x` and `y` the same sign and 0
otherwise. -/
def SgnCmp (x y : Int) (sgn0 : Int → Int) : Int :=
  EqualsToBigInt (sgn0 x) (sgn0 y)

/-- Modelled from the spec: the record h2cParams of package ecgroup, which is
not among the sources, with the fields the curve mappings read. -/
structure h2cParams where
  gc : GroupCurve
  p : Int
  a : Int
  b : Int
  z : Int
  isSqExp : Int
  sqrtExp : Int
  sgn0 : Int → Int

/-- A point of the hash-to-curve library: the coefficient lists that
`Q.X().Polynomial()` and `Q.Y().Polynomial()` return. -/
structure LibPoint where
  X : List Int
  Y : List Int

/-- The interface h2c.HashToPoint of the library: `Hash(msg, dst)`. -/
abbrev LibHashToPoint := Bytes → Bytes → LibPoint

/-- The part of the hash-to-curve library that getH2CSuite uses: the two suite
identifiers (a SuiteID is a string, given here by its bytes) and the lookup
`suite.Get()`. -/
structure H2CLib where
  P384_SHA512_SSWU_RO_ : Bytes
  P521_SHA512_SSWU_RO_ : Bytes
  Get : Bytes → Except Error LibHashToPoint

/-- Struct hasher2point (h2c.go, lines 13-17). -/
structure hasher2point where
  GroupCurve : GroupCurve
  HashToPoint : LibHashToPoint
  dst : Bytes

/-- An index expression `xs[i]`: a panic when out of range. -/
def index (xs : List Int) (i : Nat) : Except Panic Int :=
  match xs.get? i with
  | none => .error .indexOutOfRange
  | some v => .ok v

/-- Method hasher2point.Hash (h2c.go, lines 19-30). `IsValid` stands for the
method Point.IsValid of package ecgroup. -/
def hasher2point.Hash (IsValid : Point → Bool) (h : hasher2point) (msg : Bytes) :
    Except Panic (Point × Option Error) := do
  let Q := h.HashToPoint msg h.dst
  let P := Point.New h.GroupCurve
  let X := Q.X
  let Y := Q.Y
  let X0 ← index X 0
  let P := { P with X := some X0 }
  let Y0 ← index Y 0
  let P := { P with Y := some Y0 }
  if !IsValid P then
    pure (Point.empty, some .ErrInvalidGroupElement)
  else
    pure (P, none)

/-- The bytes of `"RFCXXXX-VOPRF-"`. -/
def dstPrefix : Bytes :=
  [82, 70, 67, 88, 88, 88, 88, 45, 86, 79, 80, 82, 70, 45]

/-- Function getH2CSuite (h2c.go, lines 32-49, the side of the unresolved merge
that ends the function). The switch selects the suite or returns in its
default branch. -/
def getH2CSuite (lib : H2CLib) (gc : GroupCurve) : Except Error hasher2point :=
  let selected : Option Bytes :=
    if gc.Name = "P-384" then some lib.P384_SHA512_SSWU_RO_
    else if gc.Name = "P-521" then some lib.P521_SHA512_SSWU_RO_
    else none
  match selected with
  | none => .error .ErrUnsupportedGroup
  | some suite =>
    let dst := dstPrefix ++ suite
    match lib.Get suite with
    | .error err => .error err
    | .ok hasher => .ok { GroupCurve := gc, HashToPoint := hasher, dst := dst }

/-- Function isSquare (h2c.go, lines 149-155). The product of the two
comparison results lies in `{-1, 0, 1}`, so its conversion to int64 is exact. -/
def isSquare (x exp p : Int) : Except Panic Int := do
  let b ← Exp x exp p
  let c := Cmp b 1
  let d := Cmp b 0
  let e := c * d
  pure (EqualsToBigInt e 0)

/-- Function sqrt (h2c.go, lines 160-164). -/
def sqrt (x exp p : Int) : Except Panic Int := do
  let x ← Mod x p
  let y ← Exp x exp p
  pure y

/-- The constants and steps 1 to 8 of sswu (h2c.go, lines 61-76): the values
of `t1`, `t2` and `x1` after step 8. -/
def sswuX1 (params : h2cParams) (u : Int) : Except Panic (Int × Int × Int) := do
  let p := params.p
  let A := params.a
  let B := params.b
  let Z := params.z
  let Ainv ← deref (ModInverse A p)
  let c1 ← Mod (B * (-1) * Ainv) p
  let Zinv ← deref (ModInverse Z p)
  let c2 := (-1) * Zinv
  let uu ← Exp u 2 p
  let t1 := Z * uu
  let t2 ← Exp t1 2 p
  let x1 := t1 + t2
  let x1 := Inv0 x1 p
  let e1 := EqualsToBigInt x1 0
  let x1 := x1 + 1
  let x1 := Cmov x1 c2 e1
  let x1 := x1 * c1
  pure (t1, t2, x1)

/-- Steps 1 to 21 of sswu (h2c.go, lines 61-89): the candidate `(x, y)` before
the final reduction. -/
def sswuXY (params : h2cParams) (u : Int) : Except Panic (Int × Int) := do
  let p := params.p
  let A := params.a
  let B := params.b
  let (t1, t2, x1) ← sswuX1 params u
  let gx1 ← Exp x1 2 p
  let gx1 := gx1 + A
  let gx1 := gx1 * x1
  let gx1 := gx1 + B
  let x2 := t1 * x1
  let t2 := t1 * t2
  let gx2 := gx1 * t2
  let e2 ← isSquare gx1 params.isSqExp p
  let x := Cmov x2 x1 e2
  let y2 := Cmov gx2 gx1 e2
  let y ← sqrt y2 params.sqrtExp p
  let e3 := SgnCmp u y params.sgn0
  let y := Cmov (y * (-1)) y e3
  pure (x, y)

/-- Method h2cParams.sswu (h2c.go, lines 56-99). `IsValid` stands for the
method Point.IsValid of package ecgroup. -/
def h2cParams.sswu (IsValid : Point → Bool) (params : h2cParams) (uArr : List Int) :
    Except Panic (Point × Option Error) :=
  if uArr.length > 1 then
    .ok (Point.empty, some .ErrIncompatibleGroupParams)
  else do
    let u ← index uArr 0
    let (x, y) ← sswuXY params u
    let P := Point.New params.gc
    let X ← Mod x params.p
    let P := { P with X := some X }
    let Y ← Mod y params.p
    let P := { P with Y := some Y }
    if !IsValid P then
      pure (Point.empty, some .ErrInvalidGroupElement)
    else
      pure (P, none)

/-- The first steps of elligator2 (h2c.go, lines 108-118): the values of `t1`
and `x1` after the line `x1 = -A / (1 + Z * u^2)`. -/
def elligator2X1 (params : h2cParams) (u : Int) : Int × Int :=
  let p := params.p
  let A := params.a
  let Z := params.z
  let t1 := u * u
  let t1 := Z * t1
  let e1 := EqualsToBigInt t1 (-1)
  let t1 := Cmov t1 0 e1
  let x1 := t1 + 1
  let x1 := Inv0 x1 p
  let x1 := (-A) * x1
  (t1, x1)

/-- The steps of elligator2 up to the sign fix (h2c.go, lines 108-131): the
candidate `(x, y)` before the final reduction. -/
def elligator2XY (params : h2cParams) (u : Int) : Except Panic (Int × Int) := do
  let p := params.p
  let A := params.a
  let B := params.b
  let (t1, x1) := elligator2X1 params u
  let gx1 := x1 + A
  let gx1 := gx1 * x1
  let gx1 := gx1 + B
  let gx1 := gx1 * x1
  let x2 := (-x1) - A
  let gx2 := t1 * gx1
  let e2 ← isSquare gx1 params.isSqExp p
  let x := Cmov x2 x1 e2
  let y2 := Cmov gx2 gx1 e2
  let y ← sqrt y2 params.sqrtExp p
  let e3 := SgnCmp u y params.sgn0
  let y := Cmov (-y) y e3
  pure (x, y)

/-- Method h2cParams.elligator2 (h2c.go, lines 103-145). `IsValid` stands for
the method Point.IsValid of package ecgroup. -/
def h2cParams.elligator2 (IsValid : Point → Bool) (params : h2cParams) (uArr : List Int) :
    Except Panic (Point × Option Error) :=
  if uArr.length > 1 then
    .ok (Point.empty, some .ErrIncompatibleGroupParams)
  else do
    let u ← index uArr 0
    let (x, y) ← elligator2XY params u
    let x ← Mod x params.p
    let y ← Mod y params.p
    let P := Point.New params.gc
    let P := { P with X := some x }
    let P := { P with Y := some y }
    if !IsValid P then
      pure (Point.empty, some .ErrInvalidGroupElement)
    else
      pure (P, none)

/-- Modelled from the spec: the validity test of a point of the
short-Weierstrass curve `y² = x³ + Ax + B mod p` of `params`: true when the
point has both coordinates and they satisfy the curve equation. -/
def curveEquation (params : h2cParams) (P : Point) : Bool :=
  match P.X, P.Y with
  | some x, some y =>
    decide ((y * y) % params.p = (x * x * x + params.a * x + params.b) % params.p)
  | _, _ => false

/-! ## A small concrete instance of the curve mappings: the field of 11 elements -/

/-- A sign function: -1 for an odd integer and 1 for an even one. -/
def toySgn0 (x : Int) : Int :=
  if x % 2 = 1 then -1 else 1

/-- The curve `y² = x³ + x + 6` over the field of 11 elements with `Z = -9`
(a non-square, congruent to 2) and the two exponents `(p-1)/2` and `(p+1)/4`. -/
def toyParams : h2cParams :=
  { gc := ⟨"P-384"⟩, p := 11, a := 1, b := 6, z := -9, isSqExp := 5, sqrtExp := 3,
    sgn0 := toySgn0 }

/-- Parameters for elligator2 over the field of 11 elements: `A = 2`, `B = 1`
and the non-square `Z = -1`. -/
def toyEllParams : h2cParams :=
  { gc := ⟨"curve448"⟩, p := 11, a := 2, b := 1, z := -1, isSqExp := 5, sqrtExp := 3,
    sgn0 := toySgn0 }

/-- The equation `y² = x³ + Ax² + Bx mod p` whose right-hand side elligator2
evaluates, as a validity test for `toyEllParams`. -/
def toyMontgomery (params : h2cParams) (P : Point) : Bool :=
  match P.X, P.Y with
  | some x, some y =>
    decide ((y * y) % params.p
      = (x * x * x + params.a * x * x + params.b * x) % params.p)
  | _, _ => false

/-- A library hasher that ignores the tag and maps a message of length `n` to
the pair `(n + 2, 4)`. -/
def toyLibHash : LibHashToPoint :=
  fun msg _ => { X := [((msg.length : Nat) : Int) + 2], Y := [4] }

/-- A library with two suite identifiers whose lookup succeeds on both. -/
def toyLib : H2CLib :=
  { P384_SHA512_SSWU_RO_ := [80, 51, 56, 52]
    P521_SHA512_SSWU_RO_ := [80, 53, 50, 49]
    Get := fun suite =>
      if suite = [80, 51, 56, 52] ∨ suite = [80, 53, 50, 49] then .ok toyLibHash
      else .error (.external 5) }

/-- A library whose lookup always fails. -/
def brokenLib : H2CLib :=
  { toyLib with Get := fun _ => .error (.external 5) }

/-- The hasher over `toyLibHash` for the curve named `"P-384"`. -/
def toyHasher : hasher2point :=
  { GroupCurve := ⟨"P-384"⟩, HashToPoint := toyLibHash, dst := dstPrefix ++ [80, 51, 56, 52] }

/-! ## Auxiliary facts -/

theorem ModInverse_prime (p : Nat) (hp : p.Prime) (r : Int) (h1 : 1 ≤ r)
    (h2 : r ≤ (p : Int) - 1) :
    ∃ rInv : Int, ModInverse r p = some rInv ∧ (r * rInv) % p = 1 ∧
      1 ≤ rInv ∧ rInv ≤ (p : Int) - 1 := by
  have hp1 : 1 < p := hp.one_lt
  have hpz : (1 : Int) % (p : Int) = 1 :=
    Int.emod_eq_of_lt (by norm_num) (by exact_mod_cast hp1)
  obtain ⟨k, hk⟩ : ∃ k : Nat, r = k := ⟨r.toNat, (Int.toNat_of_nonneg (by omega)).symm⟩
  subst hk
  have hk1 : 1 ≤ k := by exact_mod_cast h1
  have hk2 : k < p := by omega
  have hcop : Nat.Coprime k p := (Nat.coprime_of_lt_prime hk1 hk2 hp).symm
  obtain ⟨m, hm⟩ := Nat.exists_mul_emod_eq_one_of_coprime hcop hp1
  have hsome : ((List.range (p : Int).natAbs).find?
      (fun (z : Nat) =>
        decide ((((k : Nat) : Int) * (z : Int)) % (p : Int) = 1 % (p : Int)))).isSome := by
    rw [List.find?_isSome]
    refine ⟨m % p, ?_, ?_⟩
    · simp only [Int.natAbs_ofNat, List.mem_range]
      exact Nat.mod_lt _ (by omega)
    · rw [decide_eq_true_eq, hpz]
      have : (k * (m % p)) % p = 1 := by
        rw [Nat.mul_mod, Nat.mod_mod, ← Nat.mul_mod]; exact hm
      exact_mod_cast this
  obtain ⟨z, hz⟩ := Option.isSome_iff_exists.mp hsome
  have hz1 := List.find?_some hz
  have hz2 := List.mem_of_find?_eq_some hz
  rw [decide_eq_true_eq, hpz] at hz1
  simp only [Int.natAbs_ofNat, List.mem_range] at hz2
  refine ⟨(z : Int), ?_, hz1, ?_, ?_⟩
  · unfold ModInverse; rw [hz]; rfl
  · rcases Nat.eq_zero_or_pos z with h0 | h0
    · subst h0; simp at hz1
    · exact_mod_cast h0
  · omega

theorem Server.Eval_of_not_verifiable [GroupElement G] (s : Server G R) (sk : SecretKey G)
    (M : G) (h : s.ciph.verifiable = false) :
    s.Eval sk M = GroupElement.ScalarMult M sk.K := by
  unfold Server.Eval
  simp only [h, Bool.not_false, if_true]
  cases GroupElement.ScalarMult M sk.K <;> rfl

theorem Client.Unblind_of_not_verifiable [GroupElement G] (c : Client G R) (Z : G) (r : Int)
    (h : c.ciph.verifiable = false) :
    c.Unblind Z r = GroupElement.ScalarMult Z (ModInverse r c.ciph.pog.Order) := by
  unfold Client.Unblind
  simp only [h, Bool.false_eq_true, if_false]
  cases GroupElement.ScalarMult Z (ModInverse r c.ciph.pog.Order) <;> rfl

theorem Client.Blind_ok_iff [GroupElement G] (c : Client G R) (x : Bytes) (rand : R)
    (P : G) (r : Int) (rand1 : R) :
    c.Blind x rand = (.ok (P, r), rand1) ↔
      ∃ T : G, c.ciph.pog.EncodeToGroup x = .ok T ∧
        c.ciph.pog.UniformFieldElement rand = (.ok r, rand1) ∧
        GroupElement.ScalarMult T (some r) = .ok P := by
  cases hT : c.ciph.pog.EncodeToGroup x with
  | error e =>
    have hB : c.Blind x rand = (.error e, rand) := by
      unfold Client.Blind; simp only [hT]
    rw [hB]
    simp
  | ok T =>
    rcases hU : c.ciph.pog.UniformFieldElement rand with ⟨u, rand2⟩
    cases u with
    | error e =>
      have hB : c.Blind x rand = (.error e, rand2) := by
        unfold Client.Blind; simp only [hT, hU]
      rw [hB]
      simp
    | ok r2 =>
      cases hS : GroupElement.ScalarMult T (some r2) with
      | error e =>
        have hB : c.Blind x rand = (.error e, rand2) := by
          unfold Client.Blind; simp only [hT, hU, hS]
        rw [hB]
        simp only [Prod.mk.injEq, Except.ok.injEq, reduceCtorEq, false_and, false_iff,
          not_exists, not_and]
        rintro T2 hT2 ⟨hr, -⟩ hS2
        cases hT2; cases hr
        rw [hS] at hS2
        cases hS2
      | ok P2 =>
        have hB : c.Blind x rand = (.ok (P2, r2), rand2) := by
          unfold Client.Blind; simp only [hT, hU, hS]
        rw [hB]
        simp only [Prod.mk.injEq, Except.ok.injEq]
        constructor
        · rintro ⟨⟨hP, hr⟩, hrand⟩
          subst hP hr hrand
          exact ⟨T, rfl, ⟨rfl, rfl⟩, hS⟩
        · rintro ⟨T2, hT2, ⟨hr, hrand⟩, hS2⟩
          subst hT2 hr hrand
          rw [hS] at hS2
          cases hS2
          exact ⟨⟨rfl, rfl⟩, rfl⟩


theorem Client.Finalize_of_serialized [GroupElement G] (c : Client G R) (N : G)
    (x aux NBytes : Bytes) (h : GroupElement.Serialize N = .ok NBytes) :
    c.Finalize N x aux
      = .ok (aux ++ KeyedHash c.ciph (NBytes ++ KeyedHash c.ciph DST x) []) := by
  unfold Client.Finalize KeyedHash Hash.Sum Hash.Write
  simp only [h, List.nil_append, List.append_nil]

theorem Client.Finalize_of_not_serialized [GroupElement G] (c : Client G R) (N : G)
    (x aux : Bytes) (err : Error) (h : GroupElement.Serialize N = .error err) :
    c.Finalize N x aux = .error err := by
  unfold Client.Finalize
  simp only [h]

theorem blindedRun_eq_directRun [GroupElement G] (s : Server G R) (c : Client G R) (p : Nat)
    (hp : p.Prime) (hord : c.ciph.pog.Order = p) (hact : ScalarAction G p)
    (hs : s.ciph.verifiable = false) (hc : c.ciph.verifiable = false)
    (x aux : Bytes) (k : Int) (pub : Option G) (r : Int) (h1 : 1 ≤ r)
    (h2 : r ≤ (p : Int) - 1) :
    blindedRun s c ⟨some k, pub⟩ r x aux = directRun c k x aux := by
  obtain ⟨rInv, hinv, hmul, -, -⟩ := ModInverse_prime p hp r h1 h2
  have hres : (r * k * rInv) % (p : Int) = k % (p : Int) := by
    have : r * k * rInv = k * (r * rInv) := by ring
    rw [this, Int.mul_emod, hmul, mul_one, Int.emod_emod_of_dvd _ (dvd_refl _)]
  unfold blindedRun unblindedRun directRun
  simp only [Server.Eval_of_not_verifiable _ _ _ hs, Client.Unblind_of_not_verifiable _ _ _ hc,
    hord, hinv]
  congr 1
  funext T
  rw [← bind_assoc, ← bind_assoc, hact.mul, hact.mul, hact.residue T _ _ hres]

/-! ## The claims -/

/-- C1. Blinding round trip: over a group of prime order `p` whose scalar
multiplication is an action of the integers modulo `p`, with non-verifiable
ciphersuites, for every input `x`, key `k`, auxiliary string `aux` and blind
`r` in `[1, p-1]`, the blinded run
`Finalize(Unblind(Eval(k, ScalarMult(EncodeToGroup(x), r)), r), x, aux)` equals
the direct evaluation `Finalize(ScalarMult(EncodeToGroup(x), k), x, aux)`; in
particular any two blinds in `[1, p-1]` give the same result; and whenever
Client.Blind(x) returns `(P, r)` with `r` in `[1, p-1]`, the run on that `P` and
`r` equals the direct evaluation. -/
theorem blind_round_trip [GroupElement G] (s : Server G R) (c : Client G R) (p : Nat)
    (hp : p.Prime) (hord : c.ciph.pog.Order = p) (hact : ScalarAction G p)
    (hs : s.ciph.verifiable = false) (hc : c.ciph.verifiable = false)
    (x aux : Bytes) (k : Int) (pub : Option G) :
    (∀ r : Int, 1 ≤ r → r ≤ (p : Int) - 1 →
      blindedRun s c ⟨some k, pub⟩ r x aux = directRun c k x aux) ∧
    (∀ r1 r2 : Int, 1 ≤ r1 → r1 ≤ (p : Int) - 1 → 1 ≤ r2 → r2 ≤ (p : Int) - 1 →
      blindedRun s c ⟨some k, pub⟩ r1 x aux = blindedRun s c ⟨some k, pub⟩ r2 x aux) ∧
    (∀ (rand rand1 : R) (P : G) (r : Int), c.Blind x rand = (.ok (P, r), rand1) →
      1 ≤ r → r ≤ (p : Int) - 1 →
      unblindedRun s c ⟨some k, pub⟩ P r x aux = directRun c k x aux) := by
  refine ⟨fun r h1 h2 => blindedRun_eq_directRun s c p hp hord hact hs hc x aux k pub r h1 h2,
    fun r1 r2 h1 h2 h3 h4 => ?_, fun rand rand1 P r hB h1 h2 => ?_⟩
  · rw [blindedRun_eq_directRun s c p hp hord hact hs hc x aux k pub r1 h1 h2,
      blindedRun_eq_directRun s c p hp hord hact hs hc x aux k pub r2 h3 h4]
  · obtain ⟨T, hT, -, hS⟩ := (Client.Blind_ok_iff c x rand P r rand1).1 hB
    rw [← blindedRun_eq_directRun s c p hp hord hact hs hc x aux k pub r h1 h2]
    unfold blindedRun
    rw [hT]
    show unblindedRun s c ⟨some k, pub⟩ P r x aux
      = (GroupElement.ScalarMult T (some r) >>= fun Q => unblindedRun s c ⟨some k, pub⟩ Q r x aux)
    rw [hS]
    rfl

theorem Z7.isValid_mod (a : Int) : Z7.IsValid ⟨a % 7⟩ = true := by
  have h1 : 0 ≤ a % 7 := Int.emod_nonneg a (by norm_num)
  have h2 : a % 7 < 7 := Int.emod_lt_of_pos a (by norm_num)
  simp [Z7.IsValid, h1, h2]

theorem Z7.scalarMult_valid (g : Z7) (a : Int) (h : g.IsValid = true) :
    GroupElement.ScalarMult g (some a) = .ok ⟨(g.v * a) % 7⟩ := by
  show (if g.IsValid then (Except.ok ⟨(g.v * a) % 7⟩ : Except Error Z7)
    else .error .ErrInvalidGroupElement) = _
  rw [if_pos h]

theorem Z7.scalarMult_invalid (g : Z7) (s : Option Int) (h : g.IsValid = false) :
    GroupElement.ScalarMult g s = .error .ErrInvalidGroupElement := by
  show (if g.IsValid then
      (match s with
        | none => (.error (.external 2) : Except Error Z7)
        | some a => .ok ⟨(g.v * a) % 7⟩)
    else .error .ErrInvalidGroupElement) = _
  rw [if_neg (by simp [h])]

/-- The scalar multiplication of `Z7` is an action of the integers modulo 7. -/
theorem toy_scalarAction : ScalarAction Z7 ((7 : Nat) : Int) where
  mul := by
    intro g a b
    cases hg : g.IsValid with
    | false =>
      rw [Z7.scalarMult_invalid g _ hg, Z7.scalarMult_invalid g _ hg]
      rfl
    | true =>
      rw [Z7.scalarMult_valid g a hg, Z7.scalarMult_valid g (a * b) hg]
      show GroupElement.ScalarMult (⟨(g.v * a) % 7⟩ : Z7) (some b) = _
      rw [Z7.scalarMult_valid _ b (Z7.isValid_mod _)]
      have h : (g.v * a % 7 * b) % 7 = (g.v * (a * b)) % 7 := by
        rw [← mul_assoc]
        exact ((Int.mod_modEq (g.v * a) 7).mul_right b)
      simp only [h]
  residue := by
    intro g a b hab
    cases hg : g.IsValid with
    | false => rw [Z7.scalarMult_invalid g _ hg, Z7.scalarMult_invalid g _ hg]
    | true =>
      rw [Z7.scalarMult_valid g a hg, Z7.scalarMult_valid g b hg]
      have h : (g.v * a) % 7 = (g.v * b) % 7 := Int.ModEq.mul_left g.v hab
      rw [h]

/-- Witness of C1 on the integers modulo 7: key 3, input `[1, 2]`, blinds 2
and 5, and the pair `(6, 5)` that Blind returns with four samples left. -/
theorem blind_round_trip_witness :
    Nat.Prime 7 ∧ (toyClient false).ciph.pog.Order = ((7 : Nat) : Int) ∧
    ScalarAction Z7 ((7 : Nat) : Int) ∧
    blindedRun (toyServer false) (toyClient false) ⟨some 3, none⟩ 2 [1, 2] [9]
      = directRun (toyClient false) 3 [1, 2] [9] ∧
    blindedRun (toyServer false) (toyClient false) ⟨some 3, none⟩ 2 [1, 2] [9]
      = blindedRun (toyServer false) (toyClient false) ⟨some 3, none⟩ 5 [1, 2] [9] ∧
    (toyClient false).Blind [1, 2] 4 = (.ok (⟨6⟩, 5), 3) ∧
    unblindedRun (toyServer false) (toyClient false) ⟨some 3, none⟩ (⟨6⟩ : Z7) 5 [1, 2] [9]
      = directRun (toyClient false) 3 [1, 2] [9] :=
  ⟨by norm_num, rfl, toy_scalarAction,
    (blind_round_trip (toyServer false) (toyClient false) 7 (by norm_num) rfl
      toy_scalarAction rfl rfl [1, 2] [9] 3 none).1 2 (by decide) (by decide),
    (blind_round_trip (toyServer false) (toyClient false) 7 (by norm_num) rfl
      toy_scalarAction rfl rfl [1, 2] [9] 3 none).2.1 2 5 (by decide) (by decide)
      (by decide) (by decide),
    rfl,
    (blind_round_trip (toyServer false) (toyClient false) 7 (by norm_num) rfl
      toy_scalarAction rfl rfl [1, 2] [9] 3 none).2.2 4 3 ⟨6⟩ 5 rfl (by decide) (by decide)⟩

/-- C2, as stated, fails: on the toy ciphersuite, for the element 3, `x = [1]`
and `aux = [2]`, Finalize returns the two bytes `[2, 64]` while the two-step
derivation `KeyedHash(key = KeyedHash(key = Serialize(N), data = x), data = aux)`
is the single byte `[29]`. -/
theorem Finalize_ne_FinalizeSpec :
    Client.Finalize (toyClient false) (⟨3⟩ : Z7) [1] [2] = .ok [2, 64] ∧
    FinalizeSpec (toyClient false) (⟨3⟩ : Z7) [1] [2] = .ok [29] ∧
    Client.Finalize (toyClient false) (⟨3⟩ : Z7) [1] [2]
      ≠ FinalizeSpec (toyClient false) (⟨3⟩ : Z7) [1] [2] := by
  refine ⟨by decide, by decide, by decide⟩

/-- C2, amended. For every element `N` whose serialization succeeds and every
`x` and `aux`, Finalize succeeds, and it fails with the error of the
serialization otherwise. The first keyed hash of the derivation is keyed with
the fixed label `"oprf_derive_output"` and has `x` as its data; the keyed hash
is never keyed with `Serialize(N)`: the output depends on `x` only through
`KeyedHash(key = label, data = x)`, on `N` only through `Serialize(N)`, and is
unchanged when the keyed hash is replaced under the key `Serialize(N)` (for a
serialization other than the label and a non-empty digest). How `Serialize(N)`
enters `dk` and how `aux` enters `y` is not part of the statement. -/
theorem Finalize_derivation [GroupElement G] (c : Client G R) (N : G) (x aux : Bytes) :
    (∀ err, GroupElement.Serialize N = .error err → c.Finalize N x aux = .error err) ∧
    (∀ NBytes, GroupElement.Serialize N = .ok NBytes → ∃ y, c.Finalize N x aux = .ok y) ∧
    (∀ x2 : Bytes, KeyedHash c.ciph DST x2 = KeyedHash c.ciph DST x →
      c.Finalize N x2 aux = c.Finalize N x aux) ∧
    (∀ N2 : G, GroupElement.Serialize N2 = GroupElement.Serialize N →
      c.Finalize N2 x aux = c.Finalize N x aux) ∧
    (∀ (c2 : Client G R) (NBytes : Bytes), GroupElement.Serialize N = .ok NBytes →
      NBytes ≠ DST → KeyedHash c.ciph DST x ≠ [] →
      (∀ key data : Bytes, key ≠ NBytes →
        KeyedHash c2.ciph key data = KeyedHash c.ciph key data) →
      c2.Finalize N x aux = c.Finalize N x aux) := by
  refine ⟨fun err h => Client.Finalize_of_not_serialized c N x aux err h,
    fun NBytes h => ⟨_, Client.Finalize_of_serialized c N x aux NBytes h⟩,
    fun x2 hx => ?_, fun N2 hN => ?_, fun c2 NBytes h hne hd hagree => ?_⟩
  · cases h : GroupElement.Serialize N with
    | error err =>
      rw [Client.Finalize_of_not_serialized c N x2 aux err h,
        Client.Finalize_of_not_serialized c N x aux err h]
    | ok NBytes =>
      rw [Client.Finalize_of_serialized c N x2 aux NBytes h,
        Client.Finalize_of_serialized c N x aux NBytes h, hx]
  · cases h : GroupElement.Serialize N with
    | error err =>
      rw [Client.Finalize_of_not_serialized c N2 x aux err (hN.trans h),
        Client.Finalize_of_not_serialized c N x aux err h]
    | ok NBytes =>
      rw [Client.Finalize_of_serialized c N2 x aux NBytes (hN.trans h),
        Client.Finalize_of_serialized c N x aux NBytes h]
  · have hdk : NBytes ++ KeyedHash c.ciph DST x ≠ NBytes := by
      intro h0
      apply hd
      exact List.append_right_eq_self.mp h0
    rw [Client.Finalize_of_serialized c2 N x aux NBytes h,
      Client.Finalize_of_serialized c N x aux NBytes h,
      hagree DST x (fun h0 => hne h0.symm), hagree _ [] hdk]

/-- Witness of the amended C2 on the toy ciphersuite: the invalid element 9
fails, the element 3 succeeds, the inputs `[1]` and `[252]` have the same
keyed hash under the label and the same output, the invalid elements 9 and 10
have the same serialization result and the same output, and replacing the
keyed hash under the key `[3]`, the serialization of 3, leaves the output
unchanged. -/
theorem Finalize_derivation_witness :
    (GroupElement.Serialize (⟨9⟩ : Z7) = .error .ErrInvalidGroupElement ∧
      (toyClient false).Finalize (⟨9⟩ : Z7) [1] [2] = .error .ErrInvalidGroupElement) ∧
    (GroupElement.Serialize (⟨3⟩ : Z7) = .ok [3] ∧
      ∃ y, (toyClient false).Finalize (⟨3⟩ : Z7) [1] [2] = .ok y) ∧
    (KeyedHash (toyClient false).ciph DST [252] = KeyedHash (toyClient false).ciph DST [1] ∧
      (toyClient false).Finalize (⟨3⟩ : Z7) [252] [2]
        = (toyClient false).Finalize (⟨3⟩ : Z7) [1] [2]) ∧
    (GroupElement.Serialize (⟨10⟩ : Z7) = GroupElement.Serialize (⟨9⟩ : Z7) ∧
      (toyClient false).Finalize (⟨10⟩ : Z7) [1] [2]
        = (toyClient false).Finalize (⟨9⟩ : Z7) [1] [2]) ∧
    (KeyedHash rekeyedClient.ciph [3] [1] ≠ KeyedHash (toyClient false).ciph [3] [1] ∧
      rekeyedClient.Finalize (⟨3⟩ : Z7) [1] [2]
        = (toyClient false).Finalize (⟨3⟩ : Z7) [1] [2]) :=
  ⟨⟨rfl, (Finalize_derivation (toyClient false) (⟨9⟩ : Z7) [1] [2]).1 _ rfl⟩,
    ⟨rfl, (Finalize_derivation (toyClient false) (⟨3⟩ : Z7) [1] [2]).2.1 _ rfl⟩,
    ⟨by decide,
      (Finalize_derivation (toyClient false) (⟨3⟩ : Z7) [1] [2]).2.2.1 [252] (by decide)⟩,
    ⟨rfl, (Finalize_derivation (toyClient false) (⟨9⟩ : Z7) [1] [2]).2.2.2.1 ⟨10⟩ rfl⟩,
    ⟨by decide,
      (Finalize_derivation (toyClient false) (⟨3⟩ : Z7) [1] [2]).2.2.2.2 rekeyedClient [3] rfl
        (by decide) (by decide)
        (fun key data hk => by
          show ((rekeyedCiph.H2 rekeyedCiph.H3 key).Write data).Sum []
            = (((toyCiph false).H2 (toyCiph false).H3 key).Write data).Sum []
          have : rekeyedCiph.H2 rekeyedCiph.H3 key = (toyCiph false).H2 (toyCiph false).H3 key := by
            show (if key = [3] then _ else toyH2 toyH3 key) = toyH2 toyH3 key
            rw [if_neg hk]
          rw [this])⟩⟩

/-- C3, as stated, fails: a client whose ciphersuite is verifiable finalizes
successfully. -/
theorem Finalize_verifiable_succeeds :
    (toyClient true).ciph.verifiable = true ∧
    Client.Finalize (toyClient true) (⟨3⟩ : Z7) [1] [2] = .ok [2, 64] ∧
    Client.Finalize (toyClient true) (⟨3⟩ : Z7) [1] [2]
      ≠ .error .ErrOPRFCiphersuiteUnsupportedFunction := by
  refine ⟨rfl, by decide, by decide⟩

/-- C3, amended. Finalize does not consult the verifiable flag: for every
client, verifiable or not, and every `N`, `x` and `aux`, it returns what the
same client with the flag cleared returns; it fails exactly with the error of
`N.Serialize()` when the serialization fails and succeeds otherwise. Only Eval
and Unblind reject verifiable mode. -/
theorem Finalize_ignores_verifiable [GroupElement G] (c : Client G R) (N : G)
    (x aux : Bytes) :
    c.Finalize N x aux
      = Client.Finalize { c with ciph := { c.ciph with verifiable := false } } N x aux ∧
    (∀ err, GroupElement.Serialize N = .error err → c.Finalize N x aux = .error err) ∧
    (∀ NBytes, GroupElement.Serialize N = .ok NBytes → ∃ y, c.Finalize N x aux = .ok y) := by
  refine ⟨rfl, fun err h => ?_, fun NBytes h => ?_⟩
  · unfold Client.Finalize; simp only [h]
  · unfold Client.Finalize; simp only [h]; exact ⟨_, rfl⟩

/-- Witness of the amended C3: a verifiable client fails with the error of the
serialization on the invalid element 9 and succeeds on the element 3. -/
theorem Finalize_ignores_verifiable_witness :
    (GroupElement.Serialize (⟨9⟩ : Z7) = .error .ErrInvalidGroupElement ∧
      (toyClient true).Finalize (⟨9⟩ : Z7) [1] [2] = .error .ErrInvalidGroupElement) ∧
    (GroupElement.Serialize (⟨3⟩ : Z7) = .ok [3] ∧
      ∃ y, (toyClient true).Finalize (⟨3⟩ : Z7) [1] [2] = .ok y) :=
  ⟨⟨rfl, (Finalize_ignores_verifiable (toyClient true) (⟨9⟩ : Z7) [1] [2]).2.1 _ rfl⟩,
    ⟨rfl, (Finalize_ignores_verifiable (toyClient true) (⟨3⟩ : Z7) [1] [2]).2.2 _ rfl⟩⟩

/-- C4. Server.Eval(sk, M): when the ciphersuite is not verifiable the result
is exactly the result of `M.ScalarMult(sk.K)` for the key passed as argument,
the element on success and the error of ScalarMult on failure, whatever key
the server itself holds; when the ciphersuite is verifiable the result is
ErrOPRFCiphersuiteUnsupportedFunction for every key and element and every
implementation of ScalarMult. -/
theorem Server_Eval_spec [GroupElement G] (s : Server G R) (sk : SecretKey G) (M : G) :
    (s.ciph.verifiable = false →
      s.Eval sk M = GroupElement.ScalarMult M sk.K ∧
      ∀ held : SecretKey G, Server.Eval { s with sk := held } sk M = s.Eval sk M) ∧
    (s.ciph.verifiable = true →
      s.Eval sk M = .error .ErrOPRFCiphersuiteUnsupportedFunction) := by
  refine ⟨fun h => ⟨Server.Eval_of_not_verifiable s sk M h, fun held => rfl⟩, fun h => ?_⟩
  unfold Server.Eval
  simp only [h, Bool.not_true, Bool.false_eq_true, if_false]

/-- Witness of C4 on the toy ciphersuite: key 5 (the server holds 3) on the
element 2 gives the element 3, the invalid element 9 gives
ErrInvalidGroupElement, and the verifiable server rejects. -/
theorem Server_Eval_spec_witness :
    ((toyServer false).ciph.verifiable = false ∧
      (toyServer false).Eval ⟨some 5, none⟩ (⟨2⟩ : Z7) = .ok ⟨3⟩ ∧
      (toyServer false).Eval ⟨some 5, none⟩ (⟨2⟩ : Z7)
        = GroupElement.ScalarMult (⟨2⟩ : Z7) (some 5)) ∧
    ((toyServer false).Eval ⟨some 5, none⟩ (⟨9⟩ : Z7)
        = GroupElement.ScalarMult (⟨9⟩ : Z7) (some 5) ∧
      GroupElement.ScalarMult (⟨9⟩ : Z7) (some 5) = .error .ErrInvalidGroupElement) ∧
    ((toyServer true).ciph.verifiable = true ∧
      (toyServer true).Eval ⟨some 5, none⟩ (⟨2⟩ : Z7)
        = .error .ErrOPRFCiphersuiteUnsupportedFunction) :=
  ⟨⟨rfl, by decide,
      ((Server_Eval_spec (toyServer false) ⟨some 5, none⟩ (⟨2⟩ : Z7)).1 rfl).1⟩,
    ⟨((Server_Eval_spec (toyServer false) ⟨some 5, none⟩ (⟨9⟩ : Z7)).1 rfl).1, by decide⟩,
    ⟨rfl, (Server_Eval_spec (toyServer true) ⟨some 5, none⟩ (⟨2⟩ : Z7)).2 rfl⟩⟩

/-- C5. Client.Unblind(Z, r): when the ciphersuite is verifiable the result is
ErrOPRFCiphersuiteUnsupportedFunction for every `Z` and `r`; otherwise, for a
group order `p` that is prime and `r` in `[1, p-1]`, ModInverse returns an
inverse `rInv` (not nil) with `r * rInv = 1 (mod p)` and `rInv` in `[1, p-1]`,
and Unblind returns exactly the result of `Z.ScalarMult(rInv)`, its error
included. -/
theorem Client_Unblind_spec [GroupElement G] (c : Client G R) (Z : G) (r : Int) :
    (c.ciph.verifiable = true →
      c.Unblind Z r = .error .ErrOPRFCiphersuiteUnsupportedFunction) ∧
    (c.ciph.verifiable = false →
      ∀ p : Nat, p.Prime → c.ciph.pog.Order = (p : Int) → 1 ≤ r → r ≤ (p : Int) - 1 →
        ∃ rInv : Int, ModInverse r c.ciph.pog.Order = some rInv ∧
          (r * rInv) % (p : Int) = 1 ∧ 1 ≤ rInv ∧ rInv ≤ (p : Int) - 1 ∧
          c.Unblind Z r = GroupElement.ScalarMult Z (some rInv)) := by
  refine ⟨fun h => ?_, fun h p hp hord h1 h2 => ?_⟩
  · unfold Client.Unblind
    simp only [h, if_true]
  · obtain ⟨rInv, hinv, hmul, hlo, hhi⟩ := ModInverse_prime p hp r h1 h2
    refine ⟨rInv, by rw [hord]; exact hinv, hmul, hlo, hhi, ?_⟩
    rw [Client.Unblind_of_not_verifiable c Z r h, hord, hinv]

/-- Witness of C5 on the toy ciphersuite of order 7: the blind 3 has inverse
5, and a verifiable client rejects. -/
theorem Client_Unblind_spec_witness :
    ((toyClient true).ciph.verifiable = true ∧
      (toyClient true).Unblind (⟨2⟩ : Z7) 3
        = .error .ErrOPRFCiphersuiteUnsupportedFunction) ∧
    ((toyClient false).ciph.verifiable = false ∧ Nat.Prime 7 ∧
      (toyClient false).ciph.pog.Order = ((7 : Nat) : Int) ∧
      ModInverse 3 7 = some 5 ∧
      (toyClient false).Unblind (⟨2⟩ : Z7) 3 = .ok ⟨3⟩ ∧
      ∃ rInv : Int, ModInverse 3 (toyClient false).ciph.pog.Order = some rInv ∧
        (3 * rInv) % ((7 : Nat) : Int) = 1 ∧ 1 ≤ rInv ∧ rInv ≤ ((7 : Nat) : Int) - 1 ∧
        (toyClient false).Unblind (⟨2⟩ : Z7) 3
          = GroupElement.ScalarMult (⟨2⟩ : Z7) (some rInv)) :=
  ⟨⟨rfl, (Client_Unblind_spec (toyClient true) (⟨2⟩ : Z7) 3).1 rfl⟩,
    ⟨rfl, by norm_num, rfl, by decide, by decide,
      (Client_Unblind_spec (toyClient false) (⟨2⟩ : Z7) 3).2 rfl 7 (by norm_num) rfl
        (by decide) (by decide)⟩⟩

/-- C6. Client.Blind(x) succeeds exactly when EncodeToGroup(x),
UniformFieldElement() and T.ScalarMult(r) all succeed, and then returns
`(P, r)` with `T = EncodeToGroup(x)`, `r` the sampled scalar and
`P = T.ScalarMult(r)`; otherwise it returns the error of the first failing step,
in that order, and the random source is left as it was when the encoding
fails. The check multiplication `P.ScalarMult(rInv)` does not enter the
result. -/
theorem Client_Blind_spec [GroupElement G] (c : Client G R) (x : Bytes) (rand : R) :
    (∀ (P : G) (r : Int) (rand1 : R),
      c.Blind x rand = (.ok (P, r), rand1) ↔
        ∃ T : G, c.ciph.pog.EncodeToGroup x = .ok T ∧
          c.ciph.pog.UniformFieldElement rand = (.ok r, rand1) ∧
          GroupElement.ScalarMult T (some r) = .ok P) ∧
    (∀ err, c.ciph.pog.EncodeToGroup x = .error err → c.Blind x rand = (.error err, rand)) ∧
    (∀ (T : G) err (rand1 : R), c.ciph.pog.EncodeToGroup x = .ok T →
      c.ciph.pog.UniformFieldElement rand = (.error err, rand1) →
      c.Blind x rand = (.error err, rand1)) ∧
    (∀ (T : G) (r : Int) err (rand1 : R), c.ciph.pog.EncodeToGroup x = .ok T →
      c.ciph.pog.UniformFieldElement rand = (.ok r, rand1) →
      GroupElement.ScalarMult T (some r) = .error err →
      c.Blind x rand = (.error err, rand1)) := by
  refine ⟨fun P r rand1 => ?_, fun err h => ?_, fun T err rand1 hT hU => ?_,
    fun T r err rand1 hT hU hS => ?_⟩
  · exact Client.Blind_ok_iff c x rand P r rand1
  · unfold Client.Blind; simp only [h]
  · unfold Client.Blind; simp only [hT, hU]
  · unfold Client.Blind; simp only [hT, hU, hS]

/-- Witness of C6 on the toy ciphersuite: with four samples left the input
`[1, 2]` is encoded to 4, blinded with 5 to 6; the empty input fails in the
encoder and keeps the random source; an exhausted source fails in the sampler;
the faulty encoder fails in the scalar multiplication. -/
theorem Client_Blind_spec_witness :
    (toyClient false).Blind [1, 2] 4 = (.ok (⟨6⟩, 5), 3) ∧
    ((toyClient false).ciph.pog.EncodeToGroup [] = .error (.external 3) ∧
      (toyClient false).Blind [] 4 = (.error (.external 3), 4)) ∧
    ((toyClient false).ciph.pog.UniformFieldElement 0 = (.error (.external 1), 0) ∧
      (toyClient false).Blind [1, 2] 0 = (.error (.external 1), 0)) ∧
    (GroupElement.ScalarMult (⟨9⟩ : Z7) (some 5) = .error .ErrInvalidGroupElement ∧
      faultyClient.Blind [1, 2] 4 = (.error .ErrInvalidGroupElement, 3)) :=
  ⟨((Client_Blind_spec (toyClient false) [1, 2] 4).1 ⟨6⟩ 5 3).2 ⟨⟨4⟩, rfl, rfl, rfl⟩,
    ⟨rfl, (Client_Blind_spec (toyClient false) [] 4).2.1 _ rfl⟩,
    ⟨rfl, (Client_Blind_spec (toyClient false) [1, 2] 0).2.2.1 ⟨4⟩ _ 0 rfl rfl⟩,
    ⟨rfl, (Client_Blind_spec faultyClient [1, 2] 4).2.2.2 ⟨9⟩ 5 _ 3 rfl rfl rfl⟩⟩

/-- C7. Role misuse is always rejected: Server.Blind, Server.Unblind and
Server.Finalize return ErrOPRFUnimplementedFunctionServer for every server and
every input, and Client.Eval returns ErrOPRFUnimplementedFunctionClient for
every client, key and element. -/
theorem role_misuse_rejected (s : Server G R) (c : Client G R) (x aux : Bytes) (Z N M : G)
    (r : Int) (sk : SecretKey G) :
    s.Blind x = .error .ErrOPRFUnimplementedFunctionServer ∧
    s.Unblind Z r = .error .ErrOPRFUnimplementedFunctionServer ∧
    s.Finalize N x aux = .error .ErrOPRFUnimplementedFunctionServer ∧
    c.Eval sk M = .error .ErrOPRFUnimplementedFunctionClient :=
  ⟨rfl, rfl, rfl, rfl⟩

/-- C8. Key-pair invariant: SecretKey.New(pog) succeeds exactly when the
sampler and GeneratorMult succeed, and the key it returns has `K` equal to the
sampled scalar and `PubKey` equal to `GeneratorMult(K)`; when the sampler or
GeneratorMult fails it returns the zero SecretKey with that error. Hence
Server.Setup succeeds exactly when the name resolves and the key generation
succeeds, and the server it returns holds a key with `PubKey = GeneratorMult(K)`
in the group of the resolved ciphersuite. -/
theorem SecretKey_New_spec (sk0 : SecretKey G) (pog : PrimeOrderGroup G R) (rand : R) :
    (∀ (sk : SecretKey G) (rand1 : R),
      SecretKey.New sk0 pog rand = ((sk, none), rand1) ↔
        ∃ (k : Int) (Y : G), pog.UniformFieldElement rand = (.ok k, rand1) ∧
          pog.GeneratorMult (some k) = .ok Y ∧ sk = { K := some k, PubKey := some Y }) ∧
    (∀ err (rand1 : R), pog.UniformFieldElement rand = (.error err, rand1) →
      SecretKey.New sk0 pog rand = ((SecretKey.zero, some err), rand1)) ∧
    (∀ (k : Int) err (rand1 : R), pog.UniformFieldElement rand = (.ok k, rand1) →
      pog.GeneratorMult (some k) = .error err →
      SecretKey.New sk0 pog rand = ((SecretKey.zero, some err), rand1)) ∧
    (∀ (FromString : String → PrimeOrderGroup G R → Except Error (Ciphersuite G R))
      (s : Server G R) (name : String) (pogInit : PrimeOrderGroup G R)
      (part : Participant G R) (rand1 : R),
      Server.Setup FromString s name pogInit rand = (.ok part, rand1) ↔
        ∃ (ciph : Ciphersuite G R) (k : Int) (Y : G),
          FromString name pogInit = .ok ciph ∧
          ciph.pog.UniformFieldElement rand = (.ok k, rand1) ∧
          ciph.pog.GeneratorMult (some k) = .ok Y ∧
          part = .server { ciph := ciph, sk := { K := some k, PubKey := some Y } }) := by
  have hNew : ∀ (sk1 : SecretKey G) (q : PrimeOrderGroup G R) (sk : SecretKey G) (rand1 : R),
      SecretKey.New sk1 q rand = ((sk, none), rand1) ↔
        ∃ (k : Int) (Y : G), q.UniformFieldElement rand = (.ok k, rand1) ∧
          q.GeneratorMult (some k) = .ok Y ∧ sk = { K := some k, PubKey := some Y } := by
    intro sk1 q sk rand1
    rcases hU : q.UniformFieldElement rand with ⟨u, rand2⟩
    cases u with
    | error e =>
      have hN : SecretKey.New sk1 q rand = ((SecretKey.zero, some e), rand2) := by
        unfold SecretKey.New; simp only [hU]
      rw [hN]
      simp
    | ok k2 =>
      cases hY : q.GeneratorMult (some k2) with
      | error e =>
        have hN : SecretKey.New sk1 q rand = ((SecretKey.zero, some e), rand2) := by
          unfold SecretKey.New; simp only [hU, hY]
        rw [hN]
        simp only [Prod.mk.injEq, reduceCtorEq, and_false, false_and, Except.ok.injEq,
          false_iff, not_exists, not_and]
        rintro k Y ⟨hk, -⟩ hY2
        subst hk
        rw [hY] at hY2
        cases hY2
      | ok Y2 =>
        have hN : SecretKey.New sk1 q rand
            = (({ K := some k2, PubKey := some Y2 }, none), rand2) := by
          unfold SecretKey.New; simp only [hU, hY]
        rw [hN]
        simp only [Prod.mk.injEq, and_true, Except.ok.injEq]
        constructor
        · rintro ⟨hsk, hrand⟩
          exact ⟨k2, Y2, ⟨rfl, hrand⟩, hY, hsk.symm⟩
        · rintro ⟨k, Y, ⟨hk, hrand⟩, hY2, hsk⟩
          subst hk
          rw [hY] at hY2
          cases hY2
          exact ⟨hsk.symm, hrand⟩
  refine ⟨hNew sk0 pog, fun err rand1 hU => ?_, fun k err rand1 hU hY => ?_,
    fun FromString s name pogInit part rand1 => ?_⟩
  · unfold SecretKey.New; simp only [hU]
  · unfold SecretKey.New; simp only [hU, hY]
  · cases hF : FromString name pogInit with
    | error e =>
      have hS : Server.Setup FromString s name pogInit rand = (.error e, rand) := by
        unfold Server.Setup; simp only [hF]
      rw [hS]
      simp
    | ok ciph =>
      rcases hK : SecretKey.New SecretKey.zero ciph.pog rand with ⟨⟨sk, oe⟩, rand2⟩
      cases oe with
      | some e =>
        have hS : Server.Setup FromString s name pogInit rand = (.error e, rand2) := by
          unfold Server.Setup; simp only [hF, hK]
        rw [hS]
        simp only [Prod.mk.injEq, reduceCtorEq, false_and, Except.ok.injEq, false_iff,
          not_exists, not_and]
        rintro ciph2 k Y hc hU hY -
        subst hc
        have := (hNew SecretKey.zero ciph.pog { K := some k, PubKey := some Y } rand1).2
          ⟨k, Y, hU, hY, rfl⟩
        rw [hK] at this
        simp at this
      | none =>
        have hS : Server.Setup FromString s name pogInit rand
            = (.ok (.server { ciph := ciph, sk := sk }), rand2) := by
          unfold Server.Setup; simp only [hF, hK]
        rw [hS]
        obtain ⟨k, Y, hU, hY, hsk⟩ := (hNew SecretKey.zero ciph.pog sk rand2).1 hK
        simp only [Prod.mk.injEq, Except.ok.injEq]
        constructor
        · rintro ⟨hpart, hrand⟩
          subst hrand
          exact ⟨ciph, k, Y, rfl, hU, hY, by rw [← hpart, hsk]⟩
        · rintro ⟨ciph2, k2, Y2, hc, hU2, hY2, hpart⟩
          subst hc
          rw [hU] at hU2
          simp only [Prod.mk.injEq, Except.ok.injEq] at hU2
          obtain ⟨hk, hrand⟩ := hU2
          subst hk
          rw [hY] at hY2
          cases hY2
          exact ⟨by rw [hpart, hsk], hrand⟩

/-- The toy lookup resolves the name of the non-verifiable suite. -/
theorem toyFromString_resolves (pogInit : PrimeOrderGroup Z7 Nat) :
    toyFromString "OPRF-TOY" pogInit = .ok { toyCiph false with pog := pogInit } := by
  simp [toyFromString]

/-- The toy lookup rejects an unknown name. -/
theorem toyFromString_rejects (pogInit : PrimeOrderGroup Z7 Nat) :
    toyFromString "OPRF-P256" pogInit = .error .ErrUnsupportedGroup := by
  simp [toyFromString]

/-- Witness of C8 on the toy group: with four samples left the key is 5 with
public key 5; an exhausted source and the invalid generator of the faulty
group give the zero key with the error; Setup returns a server holding the
key pair. -/
theorem SecretKey_New_spec_witness :
    SecretKey.New SecretKey.zero toyPog 4 = (({ K := some 5, PubKey := some ⟨5⟩ }, none), 3) ∧
    (toyPog.UniformFieldElement 0 = (.error (.external 1), 0) ∧
      SecretKey.New SecretKey.zero toyPog 0 = ((SecretKey.zero, some (.external 1)), 0)) ∧
    (faultyPog.GeneratorMult (some 5) = .error .ErrInvalidGroupElement ∧
      SecretKey.New SecretKey.zero faultyPog 4
        = ((SecretKey.zero, some .ErrInvalidGroupElement), 3)) ∧
    Server.Setup toyFromString (toyServer true) "OPRF-TOY" toyPog 4
      = (.ok (.server { ciph := { toyCiph false with pog := toyPog },
                        sk := { K := some 5, PubKey := some ⟨5⟩ } }), 3) :=
  ⟨((SecretKey_New_spec SecretKey.zero toyPog 4).1 _ 3).2 ⟨5, ⟨5⟩, rfl, rfl, rfl⟩,
    ⟨rfl, (SecretKey_New_spec SecretKey.zero toyPog 0).2.1 _ 0 rfl⟩,
    ⟨rfl, (SecretKey_New_spec SecretKey.zero faultyPog 4).2.2.1 5 _ 3 rfl rfl⟩,
    ((SecretKey_New_spec SecretKey.zero toyPog 4).2.2.2 toyFromString (toyServer true)
      "OPRF-TOY" toyPog _ 3).2
      ⟨_, 5, ⟨5⟩, toyFromString_resolves toyPog, rfl, rfl, rfl⟩⟩

/-- C9. Setup is atomic on failure: when Ciphersuite.FromString fails,
Server.Setup and Client.Setup return no participant together with exactly that
error and the random source is untouched (no scalar is sampled, no key is
computed); when FromString succeeds and the key generation fails, Server.Setup
returns no participant together with the error of the key generation. -/
theorem Setup_atomic_on_failure
    (FromString : String → PrimeOrderGroup G R → Except Error (Ciphersuite G R))
    (s : Server G R) (c : Client G R) (name : String) (pogInit : PrimeOrderGroup G R)
    (rand : R) :
    (∀ err, FromString name pogInit = .error err →
      Server.Setup FromString s name pogInit rand = (.error err, rand) ∧
      Client.Setup FromString c name pogInit rand = (.error err, rand)) ∧
    (∀ (ciph : Ciphersuite G R) (sk : SecretKey G) err (rand1 : R),
      FromString name pogInit = .ok ciph →
      SecretKey.New SecretKey.zero ciph.pog rand = ((sk, some err), rand1) →
      Server.Setup FromString s name pogInit rand = (.error err, rand1)) := by
  refine ⟨fun err h => ⟨?_, ?_⟩, fun ciph sk err rand1 hF hK => ?_⟩
  · unfold Server.Setup; simp only [h]
  · unfold Client.Setup; simp only [h]
  · unfold Server.Setup; simp only [hF, hK]

/-- Witness of C9 on the toy lookup: the unknown name `"OPRF-P256"` is rejected
by both Setup operations with four samples still left, and a known name with
an exhausted source fails in the key generation. -/
theorem Setup_atomic_on_failure_witness :
    (toyFromString "OPRF-P256" toyPog = .error .ErrUnsupportedGroup ∧
      Server.Setup toyFromString (toyServer false) "OPRF-P256" toyPog 4
        = (.error .ErrUnsupportedGroup, 4) ∧
      Client.Setup toyFromString (toyClient false) "OPRF-P256" toyPog 4
        = (.error .ErrUnsupportedGroup, 4)) ∧
    (SecretKey.New SecretKey.zero toyPog 0 = ((SecretKey.zero, some (.external 1)), 0) ∧
      Server.Setup toyFromString (toyServer false) "OPRF-TOY" toyPog 0
        = (.error (.external 1), 0)) :=
  ⟨⟨toyFromString_rejects toyPog,
      (Setup_atomic_on_failure toyFromString (toyServer false) (toyClient false) "OPRF-P256"
        toyPog 4).1 _ (toyFromString_rejects toyPog)⟩,
    ⟨rfl,
      (Setup_atomic_on_failure toyFromString (toyServer false) (toyClient false) "OPRF-TOY"
        toyPog 0).2 _ _ _ 0 (toyFromString_resolves toyPog) rfl⟩⟩

/-- C10. Client.Setup resolves the ciphersuite only: when FromString succeeds
the returned participant is a client whose ciphersuite is the resolved one and
whose public key is the one of the receiver (absent when the receiver has
none), and the random source is returned untouched: no scalar is sampled and
no key is generated. -/
theorem Client_Setup_spec
    (FromString : String → PrimeOrderGroup G R → Except Error (Ciphersuite G R))
    (c : Client G R) (name : String) (pogInit : PrimeOrderGroup G R) (rand : R)
    (ciph : Ciphersuite G R) (h : FromString name pogInit = .ok ciph) :
    Client.Setup FromString c name pogInit rand
      = (.ok (.client { ciph := ciph, pk := c.pk }), rand) ∧
    (c.pk = none →
      Client.Setup FromString c name pogInit rand
        = (.ok (.client { ciph := ciph, pk := none }), rand)) := by
  have h1 : Client.Setup FromString c name pogInit rand
      = (.ok (.client { ciph := ciph, pk := c.pk }), rand) := by
    unfold Client.Setup; simp only [h]
  refine ⟨h1, fun hpk => ?_⟩
  rw [h1, hpk]

/-- Witness of C10 on the toy lookup: a verifiable client without public key
set up with the name of the non-verifiable suite. -/
theorem Client_Setup_spec_witness :
    toyFromString "OPRF-TOY" toyPog = .ok { toyCiph false with pog := toyPog } ∧
    Client.Setup toyFromString (toyClient true) "OPRF-TOY" toyPog 4
      = (.ok (.client { ciph := { toyCiph false with pog := toyPog }, pk := none }), 4) :=
  ⟨toyFromString_resolves toyPog,
    (Client_Setup_spec toyFromString (toyClient true) "OPRF-TOY" toyPog 4 _
      (toyFromString_resolves toyPog)).2 rfl⟩

/-! ## Hash to curve: auxiliary facts -/

theorem index_nil (i : Nat) : index [] i = .error .indexOutOfRange := rfl

theorem Exp_of_nonneg (x y m : Int) (hy : 0 ≤ y) (hm : m ≠ 0) :
    Exp x y m = .ok (x ^ y.toNat % m) := by
  unfold Exp
  rw [if_neg hm, if_neg (not_lt.mpr hy)]

theorem Mod_of_ne_zero (x m : Int) (hm : m ≠ 0) : Mod x m = .ok (x % m) := by
  unfold Mod
  rw [if_neg hm]

theorem intCast_eq_iff_of_range (p : Nat) (a b : Int) (ha : 0 ≤ a) (ha2 : a < p)
    (hb : 0 ≤ b) (hb2 : b < p) : ((a : ZMod p) = (b : ZMod p)) ↔ a = b := by
  rw [ZMod.intCast_eq_intCast_iff]
  unfold Int.ModEq
  rw [Int.emod_eq_of_lt ha ha2, Int.emod_eq_of_lt hb hb2]

theorem isSquare_zmod_iff (p : Nat) (x : Int) :
    IsSquare ((x : Int) : ZMod p) ↔ ∃ r : Int, (r * r) % (p : Int) = x % (p : Int) := by
  constructor
  · rintro ⟨s, hs⟩
    obtain ⟨r, rfl⟩ := ZMod.intCast_surjective s
    refine ⟨r, ?_⟩
    have : ((r * r : Int) : ZMod p) = (x : ZMod p) := by push_cast; exact hs.symm
    exact (ZMod.intCast_eq_intCast_iff _ _ _).mp this
  · rintro ⟨r, hr⟩
    refine ⟨(r : ZMod p), ?_⟩
    have : ((x : Int) : ZMod p) = ((r * r : Int) : ZMod p) :=
      ((ZMod.intCast_eq_intCast_iff _ _ _).mpr hr).symm
    rw [this]; push_cast; rfl

theorem halfExp_toNat (p : Nat) (hp : p.Prime) (hodd : p ≠ 2) :
    (((p : Int) - 1) / 2).toNat = p / 2 ∧ 0 ≤ ((p : Int) - 1) / 2 ∧ p / 2 ≠ 0 ∧ p % 2 = 1 := by
  have h2 := hp.two_le
  have h1 : p % 2 = 1 := hp.eq_two_or_odd.resolve_left hodd
  refine ⟨by omega, by omega, by omega, h1⟩

theorem isSquare_ok (p : Nat) (hp : p.Prime) (hodd : p ≠ 2) (x : Int) :
    ∃ r : Int, isSquare x (((p : Int) - 1) / 2) p = .ok r ∧ (r = 1 ∨ r = 0) ∧
      (r = 1 ↔ IsSquare ((x : Int) : ZMod p)) ∧
      (r = 1 ↔ (x ^ (p / 2) % (p : Int) = 0 ∨ x ^ (p / 2) % (p : Int) = 1)) := by
  haveI := Fact.mk hp
  obtain ⟨he, hnn, hne, -⟩ := halfExp_toNat p hp hodd
  have hp0 : (p : Int) ≠ 0 := by exact_mod_cast hp.ne_zero
  have hp1 : (1 : Int) < p := by exact_mod_cast hp.one_lt
  have hb0 : 0 ≤ x ^ (p / 2) % (p : Int) := Int.emod_nonneg _ hp0
  have hb1 : x ^ (p / 2) % (p : Int) < p := Int.emod_lt_of_pos _ (by omega)
  have hcast : ((x ^ (p / 2) % (p : Int) : Int) : ZMod p) = (x : ZMod p) ^ (p / 2) := by
    rw [ZMod.intCast_mod]; push_cast; rfl
  have hr : isSquare x (((p : Int) - 1) / 2) p
      = .ok (EqualsToBigInt (Cmp (x ^ (p / 2) % (p : Int)) 1 * Cmp (x ^ (p / 2) % (p : Int)) 0) 0) := by
    unfold isSquare
    rw [Exp_of_nonneg _ _ _ hnn hp0, he]
    rfl
  have hiff : EqualsToBigInt (Cmp (x ^ (p / 2) % (p : Int)) 1 * Cmp (x ^ (p / 2) % (p : Int)) 0) 0 = 1
      ↔ (x ^ (p / 2) % (p : Int) = 0 ∨ x ^ (p / 2) % (p : Int) = 1) := by
    generalize x ^ (p / 2) % (p : Int) = b at hb0
    unfold EqualsToBigInt Cmp
    rcases lt_trichotomy b 0 with h | h | h
    · omega
    · subst h; simp
    · rcases lt_trichotomy b 1 with h' | h' | h'
      · omega
      · subst h'; simp
      · have e1 : ¬ b < 1 := by omega
        have e2 : ¬ b = 1 := by omega
        have e3 : ¬ b < 0 := by omega
        have e4 : ¬ b = 0 := by omega
        simp [e1, e2, e3, e4]
  refine ⟨_, hr, ?_, ?_, hiff⟩
  · unfold EqualsToBigInt; split <;> simp
  · rw [hiff]
    have h0 : x ^ (p / 2) % (p : Int) = 0 ↔ (x : ZMod p) ^ (p / 2) = 0 := by
      have h := intCast_eq_iff_of_range p _ 0 hb0 hb1 le_rfl (by omega)
      rw [Int.cast_zero, hcast] at h
      exact h.symm
    have h1 : x ^ (p / 2) % (p : Int) = 1 ↔ (x : ZMod p) ^ (p / 2) = 1 := by
      have h := intCast_eq_iff_of_range p _ 1 hb0 hb1 (by norm_num) hp1
      rw [Int.cast_one, hcast] at h
      exact h.symm
    rw [h0, h1]
    by_cases hx : (x : ZMod p) = 0
    · rw [hx]
      simp [zero_pow hne]
    · rw [ZMod.euler_criterion p hx]
      constructor
      · rintro (h | h)
        · exact absurd (pow_eq_zero_iff hne |>.mp h) hx
        · exact h
      · exact fun h => Or.inr h

theorem sqrt_ok (p : Nat) (hp : p.Prime) (h34 : p % 4 = 3) (x : Int) :
    ∃ y : Int, sqrt x (((p : Int) + 1) / 4) p = .ok y ∧ 0 ≤ y ∧ y < (p : Int) ∧
      (y : ZMod p) = (x : ZMod p) ^ ((p + 1) / 4) ∧
      (IsSquare ((x : Int) : ZMod p) → (y : ZMod p) * (y : ZMod p) = (x : ZMod p)) ∧
      (¬ IsSquare ((x : Int) : ZMod p) → (y : ZMod p) * (y : ZMod p) = -(x : ZMod p)) := by
  haveI := Fact.mk hp
  have hp0 : (p : Int) ≠ 0 := by exact_mod_cast hp.ne_zero
  have hnn : 0 ≤ ((p : Int) + 1) / 4 := by omega
  have he : ((((p : Int) + 1) / 4)).toNat = (p + 1) / 4 := by omega
  have hy : sqrt x (((p : Int) + 1) / 4) p = .ok ((x % (p : Int)) ^ ((p + 1) / 4) % (p : Int)) := by
    unfold sqrt
    rw [Mod_of_ne_zero _ _ hp0]
    show (Exp (x % (p : Int)) (((p : Int) + 1) / 4) p >>= fun y => pure y) = _
    rw [Exp_of_nonneg _ _ _ hnn hp0, he]
    rfl
  have hcast : (((x % (p : Int)) ^ ((p + 1) / 4) % (p : Int) : Int) : ZMod p)
      = (x : ZMod p) ^ ((p + 1) / 4) := by
    rw [ZMod.intCast_mod]; push_cast; rfl
  have hsq : (x : ZMod p) ^ ((p + 1) / 4) * (x : ZMod p) ^ ((p + 1) / 4)
      = (x : ZMod p) * (x : ZMod p) ^ (p / 2) := by
    rw [← pow_add, ← pow_succ']
    congr 1
    omega
  refine ⟨_, hy, Int.emod_nonneg _ hp0, Int.emod_lt_of_pos _ (by omega), hcast, ?_, ?_⟩
  · intro hs
    rw [hcast, hsq]
    by_cases hx : (x : ZMod p) = 0
    · rw [hx, zero_mul]
    · rw [(ZMod.euler_criterion p hx).mp hs, mul_one]
  · intro hs
    rw [hcast, hsq]
    have hx : (x : ZMod p) ≠ 0 := by
      intro h; apply hs; rw [h]; exact isSquare_zero
    rcases ZMod.pow_div_two_eq_neg_one_or_one p hx with h | h
    · exact absurd ((ZMod.euler_criterion p hx).mpr h) hs
    · rw [h, mul_neg, mul_one]


theorem Exp_two (x m : Int) (hm : m ≠ 0) : Exp x 2 m = .ok (x ^ 2 % m) :=
  Exp_of_nonneg x 2 m (by norm_num) hm

theorem Cmov_one (a b : Int) : Cmov a b 1 = b := by
  unfold Cmov; ring

theorem Cmov_zero (a b : Int) : Cmov a b 0 = a := by
  unfold Cmov; ring

theorem EqualsToBigInt_cases (a b : Int) : EqualsToBigInt a b = 1 ∨ EqualsToBigInt a b = 0 := by
  unfold EqualsToBigInt; split <;> simp

theorem ModInverse_emod (g : Int) (p : Nat) : ModInverse g p = ModInverse (g % (p : Int)) p := by
  unfold ModInverse
  congr 2
  funext z
  congr 1
  rw [show (g % (p : Int) * (z : Int)) % (p : Int) = (g * (z : Int)) % (p : Int) from
    (Int.mod_modEq g p).mul_right z]

theorem ModInverse_zmod (p : Nat) (hp : p.Prime) (g : Int) (hg : ((g : Int) : ZMod p) ≠ 0) :
    ∃ z : Int, ModInverse g p = some z ∧ (z : ZMod p) = ((g : Int) : ZMod p)⁻¹ ∧
      0 ≤ z ∧ z < (p : Int) := by
  haveI := Fact.mk hp
  have hp0 : (p : Int) ≠ 0 := by exact_mod_cast hp.ne_zero
  have hpos : (0 : Int) < p := by exact_mod_cast hp.pos
  have h0 : 0 ≤ g % (p : Int) := Int.emod_nonneg _ hp0
  have h1 : g % (p : Int) < p := Int.emod_lt_of_pos _ hpos
  have hne : g % (p : Int) ≠ 0 := by
    intro h
    apply hg
    rw [ZMod.intCast_zmod_eq_zero_iff_dvd]
    exact Int.dvd_of_emod_eq_zero h
  obtain ⟨z, hz, hmul, hlo, hhi⟩ := ModInverse_prime p hp (g % (p : Int)) (by omega) (by omega)
  refine ⟨z, by rw [ModInverse_emod]; exact hz, ?_, by omega, by omega⟩
  have hc : (((g % (p : Int)) * z % (p : Int) : Int) : ZMod p) = ((1 : Int) : ZMod p) := by
    rw [hmul]
  rw [ZMod.intCast_mod] at hc
  push_cast at hc
  exact eq_inv_of_mul_eq_one_right hc

theorem ModInverse_none (p : Nat) (hp : p.Prime) (g : Int) (hg : ((g : Int) : ZMod p) = 0) :
    ModInverse g p = none := by
  have hp1 : (1 : Int) < p := by exact_mod_cast hp.one_lt
  have hdvd : (p : Int) ∣ g := (ZMod.intCast_zmod_eq_zero_iff_dvd g p).mp hg
  unfold ModInverse
  rw [Option.map_eq_none', List.find?_eq_none]
  intro z _
  rw [decide_eq_true_eq]
  have h1 : (g * (z : Int)) % (p : Int) = 0 :=
    Int.emod_eq_zero_of_dvd (Dvd.dvd.mul_right hdvd _)
  have h2 : (1 : Int) % (p : Int) = 1 := Int.emod_eq_of_lt (by norm_num) hp1
  rw [h1, h2]
  norm_num

theorem Inv0_zmod (p : Nat) (hp : p.Prime) (x : Int) :
    ((Inv0 x p : Int) : ZMod p) = ((x : Int) : ZMod p)⁻¹ ∧
      (Inv0 x p = 0 ↔ ((x : Int) : ZMod p) = 0) := by
  haveI := Fact.mk hp
  by_cases hx : ((x : Int) : ZMod p) = 0
  · have h : Inv0 x p = 0 := by
      unfold Inv0; rw [ModInverse_none p hp x hx]
    rw [h, hx]
    simp
  · obtain ⟨z, hz, hc, hlo, hhi⟩ := ModInverse_zmod p hp x hx
    have h : Inv0 x p = z := by
      unfold Inv0; rw [hz]
    rw [h]
    refine ⟨hc, ?_⟩
    constructor
    · intro h0
      rw [h0, Int.cast_zero] at hc
      exact absurd (inv_eq_zero.mp hc.symm) hx
    · intro h0; exact absurd h0 hx

theorem isSquare_mul_of_not (p : Nat) [Fact p.Prime] (a b : ZMod p)
    (ha : ¬ IsSquare a) (hb : ¬ IsSquare b) : IsSquare (a * b) := by
  have ha0 : a ≠ 0 := by
    intro h; apply ha; rw [h]; exact isSquare_zero
  have hb0 : b ≠ 0 := by
    intro h; apply hb; rw [h]; exact isSquare_zero
  have ha1 : a ^ (p / 2) = -1 := by
    rcases ZMod.pow_div_two_eq_neg_one_or_one p ha0 with h | h
    · exact absurd ((ZMod.euler_criterion p ha0).mpr h) ha
    · exact h
  have hb1 : b ^ (p / 2) = -1 := by
    rcases ZMod.pow_div_two_eq_neg_one_or_one p hb0 with h | h
    · exact absurd ((ZMod.euler_criterion p hb0).mpr h) hb
    · exact h
  rw [ZMod.euler_criterion p (mul_ne_zero ha0 hb0), mul_pow, ha1, hb1]
  norm_num

/-- The values of `t1`, `t2` and `x1` of sswu in the field. -/
theorem sswuX1_ok (p : Nat) [Fact p.Prime] (params : h2cParams) (hpp : params.p = (p : Int))
    (hA : ((params.a : Int) : ZMod p) ≠ 0) (hZ : ((params.z : Int) : ZMod p) ≠ 0) (u : Int) :
    ∃ t1 t2 x1 : Int, sswuX1 params u = .ok (t1, t2, x1) ∧
      (t1 : ZMod p) = (params.z : ZMod p) * (u : ZMod p) ^ 2 ∧
      (t2 : ZMod p) = ((params.z : ZMod p) * (u : ZMod p) ^ 2) ^ 2 ∧
      (((params.z : ZMod p) * (u : ZMod p) ^ 2) ^ 2 + (params.z : ZMod p) * (u : ZMod p) ^ 2 = 0 →
        (x1 : ZMod p) = (params.b : ZMod p) / ((params.z : ZMod p) * (params.a : ZMod p))) ∧
      (((params.z : ZMod p) * (u : ZMod p) ^ 2) ^ 2 + (params.z : ZMod p) * (u : ZMod p) ^ 2 ≠ 0 →
        (x1 : ZMod p) = -(params.b : ZMod p) / (params.a : ZMod p) *
          (1 + (((params.z : ZMod p) * (u : ZMod p) ^ 2) ^ 2
            + (params.z : ZMod p) * (u : ZMod p) ^ 2)⁻¹)) := by
  have hp : p.Prime := Fact.out
  have hp0 : (p : Int) ≠ 0 := by exact_mod_cast hp.ne_zero
  obtain ⟨ai, hai, haic, -, -⟩ := ModInverse_zmod p hp params.a hA
  obtain ⟨zi, hzi, hzic, -, -⟩ := ModInverse_zmod p hp params.z hZ
  have hev : sswuX1 params u = .ok
      (params.z * (u ^ 2 % (p : Int)), (params.z * (u ^ 2 % (p : Int))) ^ 2 % (p : Int),
        Cmov (Inv0 (params.z * (u ^ 2 % (p : Int))
            + (params.z * (u ^ 2 % (p : Int))) ^ 2 % (p : Int)) p + 1) (-1 * zi)
          (EqualsToBigInt (Inv0 (params.z * (u ^ 2 % (p : Int))
            + (params.z * (u ^ 2 % (p : Int))) ^ 2 % (p : Int)) p) 0)
          * ((params.b * -1 * ai) % (p : Int))) := by
    unfold sswuX1
    simp only [hpp, hai, hzi, deref, Mod_of_ne_zero _ _ hp0, Exp_two _ _ hp0, bind, Except.bind,
      pure, Except.pure]
  have ht1 : ((params.z * (u ^ 2 % (p : Int)) : Int) : ZMod p)
      = (params.z : ZMod p) * (u : ZMod p) ^ 2 := by
    simp only [Int.cast_mul, ZMod.intCast_mod, Int.cast_pow]
  have ht2 : (((params.z * (u ^ 2 % (p : Int))) ^ 2 % (p : Int) : Int) : ZMod p)
      = ((params.z : ZMod p) * (u : ZMod p) ^ 2) ^ 2 := by
    rw [ZMod.intCast_mod, Int.cast_pow, ht1]
  have hs : ((params.z * (u ^ 2 % (p : Int))
      + (params.z * (u ^ 2 % (p : Int))) ^ 2 % (p : Int) : Int) : ZMod p)
      = ((params.z : ZMod p) * (u : ZMod p) ^ 2) ^ 2 + (params.z : ZMod p) * (u : ZMod p) ^ 2 := by
    rw [Int.cast_add, ht1, ht2, add_comm]
  have hc1 : (((params.b * -1 * ai) % (p : Int) : Int) : ZMod p)
      = -(params.b : ZMod p) / (params.a : ZMod p) := by
    rw [ZMod.intCast_mod]; push_cast; rw [haic]; field_simp
  obtain ⟨hinv, hinv0⟩ := Inv0_zmod p hp (params.z * (u ^ 2 % (p : Int))
      + (params.z * (u ^ 2 % (p : Int))) ^ 2 % (p : Int))
  rw [hs] at hinv hinv0
  refine ⟨_, _, _, hev, ht1, ht2, fun h0 => ?_, fun h0 => ?_⟩
  · have he : EqualsToBigInt (Inv0 (params.z * (u ^ 2 % (p : Int))
        + (params.z * (u ^ 2 % (p : Int))) ^ 2 % (p : Int)) p) 0 = 1 := by
      unfold EqualsToBigInt; rw [if_pos (hinv0.mpr h0)]
    rw [he, Cmov_one, Int.cast_mul, hc1]
    push_cast
    rw [hzic]
    field_simp
  · have he : EqualsToBigInt (Inv0 (params.z * (u ^ 2 % (p : Int))
        + (params.z * (u ^ 2 % (p : Int))) ^ 2 % (p : Int)) p) 0 = 0 := by
      unfold EqualsToBigInt; rw [if_neg (fun h => h0 (hinv0.mp h))]
    rw [he, Cmov_zero, Int.cast_mul, hc1, Int.cast_add, hinv]
    push_cast
    ring


theorem SgnCmp_cases (x y : Int) (sgn0 : Int → Int) :
    SgnCmp x y sgn0 = 1 ∨ SgnCmp x y sgn0 = 0 :=
  EqualsToBigInt_cases _ _

/-- The candidate of sswu in the field: it satisfies the curve equation, and
its abscissa is selected by the square test on `g(x1)`. -/
theorem sswuXY_ok (p : Nat) [Fact p.Prime] (h34 : p % 4 = 3) (params : h2cParams)
    (hpp : params.p = (p : Int))
    (hA : ((params.a : Int) : ZMod p) ≠ 0) (hZ : ¬ IsSquare ((params.z : Int) : ZMod p))
    (hg : ∀ x0 : ZMod p, (params.z : ZMod p) * (params.a : ZMod p) * x0 = (params.b : ZMod p) →
      IsSquare (x0 ^ 3 + (params.a : ZMod p) * x0 + (params.b : ZMod p)))
    (hsq : params.isSqExp = ((p : Int) - 1) / 2) (hrt : params.sqrtExp = ((p : Int) + 1) / 4)
    (u : Int) :
    ∃ t1 t2 x1 x y : Int, sswuX1 params u = .ok (t1, t2, x1) ∧
      sswuXY params u = .ok (x, y) ∧
      (y : ZMod p) * (y : ZMod p)
        = (x : ZMod p) ^ 3 + (params.a : ZMod p) * (x : ZMod p) + (params.b : ZMod p) ∧
      (IsSquare ((x1 : ZMod p) ^ 3 + (params.a : ZMod p) * (x1 : ZMod p) + (params.b : ZMod p)) →
        (x : ZMod p) = (x1 : ZMod p)) ∧
      (¬ IsSquare ((x1 : ZMod p) ^ 3 + (params.a : ZMod p) * (x1 : ZMod p)
          + (params.b : ZMod p)) →
        (x : ZMod p) = (params.z : ZMod p) * (u : ZMod p) ^ 2 * (x1 : ZMod p)) := by
  have hp : p.Prime := Fact.out
  have hodd : p ≠ 2 := by omega
  have hp0 : (p : Int) ≠ 0 := by exact_mod_cast hp.ne_zero
  have hZ0 : ((params.z : Int) : ZMod p) ≠ 0 := by
    intro h; apply hZ; rw [h]; exact isSquare_zero
  obtain ⟨t1, t2, x1, hX1, ht1, ht2, hx1a, hx1b⟩ := sswuX1_ok p params hpp hA hZ0 u
  have hgx1 : ((((x1 ^ 2 % (p : Int)) + params.a) * x1 + params.b : Int) : ZMod p)
      = (x1 : ZMod p) ^ 3 + (params.a : ZMod p) * (x1 : ZMod p) + (params.b : ZMod p) := by
    simp only [Int.cast_add, Int.cast_mul, ZMod.intCast_mod, Int.cast_pow]
    ring
  obtain ⟨e2, he2, he2c, he2iff, -⟩ :=
    isSquare_ok p hp hodd (((x1 ^ 2 % (p : Int)) + params.a) * x1 + params.b)
  rw [hgx1] at he2iff
  obtain ⟨y0, hy0, -, -, -, hsqr, -⟩ := sqrt_ok p hp h34
    (Cmov ((((x1 ^ 2 % (p : Int)) + params.a) * x1 + params.b) * (t1 * t2))
      (((x1 ^ 2 % (p : Int)) + params.a) * x1 + params.b) e2)
  have hev : sswuXY params u = .ok (Cmov (t1 * x1) x1 e2,
      Cmov (y0 * -1) y0 (SgnCmp u y0 params.sgn0)) := by
    unfold sswuXY
    simp only [hX1, hpp, hsq, hrt, Exp_two _ _ hp0, he2, hy0, bind, Except.bind, pure,
      Except.pure]
  have hyy : ((Cmov (y0 * -1) y0 (SgnCmp u y0 params.sgn0) : Int) : ZMod p)
      * ((Cmov (y0 * -1) y0 (SgnCmp u y0 params.sgn0) : Int) : ZMod p)
      = (y0 : ZMod p) * (y0 : ZMod p) := by
    rcases SgnCmp_cases u y0 params.sgn0 with h | h
    · rw [h, Cmov_one]
    · rw [h, Cmov_zero]; push_cast; ring
  refine ⟨t1, t2, x1, _, _, hX1, hev, ?_, ?_, ?_⟩
  · rw [hyy]
    rcases he2c with h1 | h0
    · have hs := he2iff.mp h1
      subst h1
      rw [Cmov_one] at hsqr
      rw [Cmov_one, hsqr (by rw [hgx1]; exact hs), hgx1]
    · have hns : ¬ IsSquare ((x1 : ZMod p) ^ 3 + (params.a : ZMod p) * (x1 : ZMod p)
          + (params.b : ZMod p)) := by
        intro h; have := he2iff.mpr h; omega
      have hs0 : ((params.z : ZMod p) * (u : ZMod p) ^ 2) ^ 2
          + (params.z : ZMod p) * (u : ZMod p) ^ 2 ≠ 0 := by
        intro h
        apply hns
        have hx := hx1a h
        apply hg
        rw [hx]
        field_simp
      have hx := hx1b hs0
      subst h0
      rw [Cmov_zero] at hsqr
      rw [Cmov_zero]
      have hy2 : (((((x1 ^ 2 % (p : Int)) + params.a) * x1 + params.b) * (t1 * t2) : Int) :
          ZMod p) = ((x1 : ZMod p) ^ 3 + (params.a : ZMod p) * (x1 : ZMod p)
            + (params.b : ZMod p)) * ((params.z : ZMod p) * (u : ZMod p) ^ 2) ^ 3 := by
        rw [Int.cast_mul, hgx1, Int.cast_mul, ht1, ht2]; ring
      have hsq2 : IsSquare (((((x1 ^ 2 % (p : Int)) + params.a) * x1 + params.b) * (t1 * t2)
          : Int) : ZMod p) := by
        rw [hy2]
        obtain ⟨r, hr⟩ := isSquare_mul_of_not p _ _ hns hZ
        refine ⟨r * ((u : ZMod p) * ((params.z : ZMod p) * (u : ZMod p) ^ 2)), ?_⟩
        linear_combination ((u : ZMod p) * ((params.z : ZMod p) * (u : ZMod p) ^ 2)) ^ 2 * hr
      rw [hsqr hsq2, hy2, Int.cast_mul, ht1]
      have hw : (params.z : ZMod p) * (u : ZMod p) ^ 2 ≠ 0 := by
        intro h; apply hs0; rw [h]; ring
      have hw1 : (params.z : ZMod p) * (u : ZMod p) ^ 2 + 1 ≠ 0 := by
        intro h; apply hs0
        have : ((params.z : ZMod p) * (u : ZMod p) ^ 2) ^ 2
            + (params.z : ZMod p) * (u : ZMod p) ^ 2
            = (params.z : ZMod p) * (u : ZMod p) ^ 2
              * ((params.z : ZMod p) * (u : ZMod p) ^ 2 + 1) := by ring
        rw [this, h, mul_zero]
      rw [hx]
      generalize (params.z : ZMod p) * (u : ZMod p) ^ 2 = w at hs0 hw hw1 ⊢
      have hs1 : w ^ 2 + w = w * (w + 1) := by ring
      rw [hs1]
      field_simp
      ring
  · intro hs
    have h1 := he2iff.mpr hs
    rw [h1, Cmov_one]
  · intro hns
    have h0 : e2 = 0 := by
      rcases he2c with h | h
      · exact absurd (he2iff.mp h) hns
      · exact h
    rw [h0, Cmov_zero, Int.cast_mul, ht1]

theorem index_cons (x : Int) (xs : List Int) : index (x :: xs) 0 = .ok x := rfl

theorem intCast_ne_zero_of_emod (p : Nat) (a : Int) (h : a % (p : Int) ≠ 0) :
    ((a : Int) : ZMod p) ≠ 0 := by
  intro h0
  apply h
  exact Int.emod_eq_zero_of_dvd ((ZMod.intCast_zmod_eq_zero_iff_dvd a p).mp h0)

theorem sswu_single (IsValid : Point → Bool) (params : h2cParams) (u x y : Int)
    (hXY : sswuXY params u = .ok (x, y)) (hp0 : params.p ≠ 0) :
    params.sswu IsValid [u]
      = .ok (if !IsValid { pog := some params.gc, X := some (x % params.p),
                           Y := some (y % params.p) }
          then (Point.empty, some .ErrInvalidGroupElement)
          else ({ pog := some params.gc, X := some (x % params.p),
                  Y := some (y % params.p) }, none)) := by
  unfold h2cParams.sswu
  simp only [List.length_singleton, gt_iff_lt, lt_self_iff_false, if_false, index_cons, hXY,
    Mod_of_ne_zero _ _ hp0, Point.New, bind, Except.bind, pure, Except.pure]
  split <;> rfl


theorem not_square_of_forall_lt (p : Nat) (hp : 0 < p) (z : Int)
    (h : ∀ r : Nat, r < p → ((r : Int) * (r : Int)) % (p : Int) ≠ z % (p : Int)) :
    ¬ ∃ r : Int, (r * r) % (p : Int) = z % (p : Int) := by
  rintro ⟨r, hr⟩
  have hp0 : (p : Int) ≠ 0 := by exact_mod_cast hp.ne'
  have h0 : 0 ≤ r % (p : Int) := Int.emod_nonneg _ hp0
  have h1 : r % (p : Int) < p := Int.emod_lt_of_pos _ (by exact_mod_cast hp)
  apply h (r % (p : Int)).toNat (by omega)
  rw [Int.toNat_of_nonneg h0, ← hr]
  exact ((Int.mod_modEq r p).mul (Int.mod_modEq r p))

theorem elligator2_single (IsValid : Point → Bool) (params : h2cParams) (u x y : Int)
    (hXY : elligator2XY params u = .ok (x, y)) (hp0 : params.p ≠ 0) :
    params.elligator2 IsValid [u]
      = .ok (if !IsValid (Point.mk (some params.gc) (some (x % params.p))
                (some (y % params.p)))
          then (Point.empty, some .ErrInvalidGroupElement)
          else (Point.mk (some params.gc) (some (x % params.p)) (some (y % params.p)),
            none)) := by
  unfold h2cParams.elligator2
  simp only [List.length_singleton, gt_iff_lt, lt_self_iff_false, if_false, index_cons, hXY,
    Mod_of_ne_zero _ _ hp0, Point.New, bind, Except.bind, pure, Except.pure]
  split <;> rfl

theorem sswu_error (IsValid : Point → Bool) (params : h2cParams) (u : Int) (e : Panic)
    (hXY : sswuXY params u = .error e) : params.sswu IsValid [u] = .error e := by
  unfold h2cParams.sswu
  simp only [List.length_singleton, gt_iff_lt, lt_self_iff_false, if_false, index_cons, hXY,
    bind, Except.bind]

theorem elligator2_error (IsValid : Point → Bool) (params : h2cParams) (u : Int) (e : Panic)
    (hXY : elligator2XY params u = .error e) : params.elligator2 IsValid [u] = .error e := by
  unfold h2cParams.elligator2
  simp only [List.length_singleton, gt_iff_lt, lt_self_iff_false, if_false, index_cons, hXY,
    bind, Except.bind]

theorem point_in_range (params : h2cParams) (hp : 0 < params.p) (IsValid : Point → Bool)
    (x y : Int) (P : Point)
    (h : (Except.ok (if !IsValid (Point.mk (some params.gc) (some (x % params.p))
                (some (y % params.p)))
          then (Point.empty, some Error.ErrInvalidGroupElement)
          else (Point.mk (some params.gc) (some (x % params.p)) (some (y % params.p)),
            none)) : Except Panic (Point × Option Error)) = .ok (P, none)) :
    ∃ X Y : Int, P.X = some X ∧ P.Y = some Y ∧ 0 ≤ X ∧ X < params.p ∧ 0 ≤ Y ∧
      Y < params.p := by
  have hp0 : params.p ≠ 0 := by omega
  split at h
  · simp at h
  · simp only [Except.ok.injEq, Prod.mk.injEq, and_true] at h
    subst h
    exact ⟨_, _, rfl, rfl, Int.emod_nonneg _ hp0, Int.emod_lt_of_pos _ hp,
      Int.emod_nonneg _ hp0, Int.emod_lt_of_pos _ hp⟩

/-! ## Hash to curve: the claims -/

/-- C11. Hash-to-point validity closure: for every message whose library
output has a first coefficient in both coordinates, hasher2point.Hash builds
the candidate point with those coefficients as X and Y, returns it with no
error when the candidate is valid and returns the empty Point with
ErrInvalidGroupElement when it is not; every point returned without error is
valid. -/
theorem hasher2point_Hash_spec (IsValid : Point → Bool) (h : hasher2point) (msg : Bytes)
    (x0 y0 : Int) (xs ys : List Int)
    (hX : (h.HashToPoint msg h.dst).X = x0 :: xs)
    (hY : (h.HashToPoint msg h.dst).Y = y0 :: ys) :
    (IsValid { pog := some h.GroupCurve, X := some x0, Y := some y0 } = true →
      h.Hash IsValid msg
        = .ok ({ pog := some h.GroupCurve, X := some x0, Y := some y0 }, none)) ∧
    (IsValid { pog := some h.GroupCurve, X := some x0, Y := some y0 } = false →
      h.Hash IsValid msg = .ok (Point.empty, some .ErrInvalidGroupElement)) ∧
    (∀ P : Point, h.Hash IsValid msg = .ok (P, none) → IsValid P = true) := by
  have key : h.Hash IsValid msg
      = .ok (if !IsValid { pog := some h.GroupCurve, X := some x0, Y := some y0 }
          then (Point.empty, some .ErrInvalidGroupElement)
          else ({ pog := some h.GroupCurve, X := some x0, Y := some y0 }, none)) := by
    unfold hasher2point.Hash
    simp only [hX, hY, index_cons, Point.New, bind, Except.bind, pure, Except.pure]
    split <;> rfl
  refine ⟨fun hv => ?_, fun hv => ?_, fun P hP => ?_⟩
  · rw [key, hv]; rfl
  · rw [key, hv]; rfl
  · rw [key] at hP
    cases hv : IsValid { pog := some h.GroupCurve, X := some x0, Y := some y0 } with
    | false => rw [hv] at hP; simp at hP
    | true =>
      rw [hv] at hP
      simp only [Bool.not_true, Bool.false_eq_true, if_false, Except.ok.injEq,
        Prod.mk.injEq, and_true] at hP
      rw [← hP]; exact hv

/-- Witness of C11 on the toy hasher: the empty message gives the valid point
`(2, 4)` and the message `[1]` the invalid candidate `(3, 4)`. -/
theorem hasher2point_Hash_spec_witness :
    ((toyHasher.HashToPoint [] toyHasher.dst).X = [2] ∧
      (toyHasher.HashToPoint [] toyHasher.dst).Y = [4] ∧
      curveEquation toyParams (Point.mk (some toyHasher.GroupCurve) (some 2) (some 4)) = true ∧
      toyHasher.Hash (curveEquation toyParams) []
        = .ok (Point.mk (some toyHasher.GroupCurve) (some 2) (some 4), none)) ∧
    (curveEquation toyParams (Point.mk (some toyHasher.GroupCurve) (some 3) (some 4)) = false ∧
      toyHasher.Hash (curveEquation toyParams) [1]
        = .ok (Point.empty, some .ErrInvalidGroupElement)) :=
  ⟨⟨rfl, rfl, by decide,
      (hasher2point_Hash_spec (curveEquation toyParams) toyHasher [] 2 4 [] [] rfl rfl).1
        (by decide)⟩,
    ⟨by decide,
      (hasher2point_Hash_spec (curveEquation toyParams) toyHasher [1] 3 4 [] [] rfl rfl).2.1
        (by decide)⟩⟩

/-- C12. Hash-to-curve suite selection: for a curve whose name is neither
`"P-384"` nor `"P-521"` getH2CSuite returns ErrUnsupportedGroup; for `"P-384"`
and `"P-521"` it looks up the suite of that name in the library, returns the
error of a failed lookup, and on success returns the hasher with the tag
`"RFCXXXX-VOPRF-"` followed by the suite identifier. -/
theorem getH2CSuite_spec (lib : H2CLib) (gc : GroupCurve) :
    (gc.Name ≠ "P-384" → gc.Name ≠ "P-521" →
      getH2CSuite lib gc = .error .ErrUnsupportedGroup) ∧
    (gc.Name = "P-384" →
      (∀ err, lib.Get lib.P384_SHA512_SSWU_RO_ = .error err →
        getH2CSuite lib gc = .error err) ∧
      (∀ hasher, lib.Get lib.P384_SHA512_SSWU_RO_ = .ok hasher →
        getH2CSuite lib gc
          = .ok ⟨gc, hasher, dstPrefix ++ lib.P384_SHA512_SSWU_RO_⟩)) ∧
    (gc.Name = "P-521" →
      (∀ err, lib.Get lib.P521_SHA512_SSWU_RO_ = .error err →
        getH2CSuite lib gc = .error err) ∧
      (∀ hasher, lib.Get lib.P521_SHA512_SSWU_RO_ = .ok hasher →
        getH2CSuite lib gc
          = .ok ⟨gc, hasher, dstPrefix ++ lib.P521_SHA512_SSWU_RO_⟩)) := by
  refine ⟨fun h1 h2 => ?_, fun h1 => ⟨fun err hG => ?_, fun hasher hG => ?_⟩,
    fun h1 => ⟨fun err hG => ?_, fun hasher hG => ?_⟩⟩
  · unfold getH2CSuite; simp only [h1, h2, if_false]
  · unfold getH2CSuite; simp only [h1, if_true, hG]
  · unfold getH2CSuite; simp only [h1, if_true, hG]
  · have h2 : ¬ ("P-521" = "P-384") := by decide
    unfold getH2CSuite; simp only [h1, h2, if_false, if_true, hG]
  · have h2 : ¬ ("P-521" = "P-384") := by decide
    unfold getH2CSuite; simp only [h1, h2, if_false, if_true, hG]

/-- Witness of C12 on the toy libraries. -/
theorem getH2CSuite_spec_witness :
    getH2CSuite toyLib ⟨"P-256"⟩ = .error .ErrUnsupportedGroup ∧
    getH2CSuite toyLib ⟨"P-384"⟩
      = .ok ⟨⟨"P-384"⟩, toyLibHash, dstPrefix ++ [80, 51, 56, 52]⟩ ∧
    getH2CSuite toyLib ⟨"P-521"⟩
      = .ok ⟨⟨"P-521"⟩, toyLibHash, dstPrefix ++ [80, 53, 50, 49]⟩ ∧
    getH2CSuite brokenLib ⟨"P-384"⟩ = .error (.external 5) ∧
    getH2CSuite brokenLib ⟨"P-521"⟩ = .error (.external 5) :=
  ⟨(getH2CSuite_spec toyLib ⟨"P-256"⟩).1 (by decide) (by decide),
    ((getH2CSuite_spec toyLib ⟨"P-384"⟩).2.1 rfl).2 toyLibHash rfl,
    ((getH2CSuite_spec toyLib ⟨"P-521"⟩).2.2 rfl).2 toyLibHash rfl,
    ((getH2CSuite_spec brokenLib ⟨"P-384"⟩).2.1 rfl).1 _ rfl,
    ((getH2CSuite_spec brokenLib ⟨"P-521"⟩).2.2 rfl).1 _ rfl⟩

/-- C13, the code at the failing input: on the empty list sswu and elligator2
pass the guard `len(uArr) > 1` and panic on `uArr[0]` instead of returning
ErrIncompatibleGroupParams; on a list of two or more elements they return the
empty Point with ErrIncompatibleGroupParams. -/
theorem sswu_elligator2_arity (IsValid : Point → Bool) (params : h2cParams) :
    params.sswu IsValid [] = .error .indexOutOfRange ∧
    params.elligator2 IsValid [] = .error .indexOutOfRange ∧
    (∀ (u v : Int) (rest : List Int),
      params.sswu IsValid (u :: v :: rest)
        = .ok (Point.empty, some .ErrIncompatibleGroupParams) ∧
      params.elligator2 IsValid (u :: v :: rest)
        = .ok (Point.empty, some .ErrIncompatibleGroupParams)) := by
  refine ⟨rfl, rfl, fun u v rest => ⟨?_, ?_⟩⟩
  · unfold h2cParams.sswu; simp
  · unfold h2cParams.elligator2; simp

/-- C14. isSquare decides quadratic residuosity: for every odd prime `p`,
`exp = (p-1)/2` and every integer `x`, isSquare(x, exp, p) returns 1 when `x`
is a square modulo `p` (zero included) and 0 otherwise; it returns 1 exactly
when `x^exp mod p` is 0 or 1. -/
theorem isSquare_spec (p : Nat) (hp : p.Prime) (hodd : p ≠ 2) (x : Int) :
    ∃ r : Int, isSquare x (((p : Int) - 1) / 2) p = .ok r ∧ (r = 1 ∨ r = 0) ∧
      (r = 1 ↔ ∃ s : Int, (s * s) % (p : Int) = x % (p : Int)) ∧
      (r = 1 ↔ (x ^ ((p - 1) / 2) % (p : Int) = 0 ∨ x ^ ((p - 1) / 2) % (p : Int) = 1)) := by
  obtain ⟨r, hr, hc, hsq, hb⟩ := isSquare_ok p hp hodd x
  have he : (p - 1) / 2 = p / 2 := by
    have := (halfExp_toNat p hp hodd).2.2.2
    omega
  refine ⟨r, hr, hc, ?_, ?_⟩
  · rw [hsq, isSquare_zmod_iff]
  · rw [he]; exact hb

/-- Witness of C14 in the field of 11 elements: 3 is a square and -9 is
not. -/
theorem isSquare_spec_witness :
    Nat.Prime 11 ∧ isSquare 3 5 11 = .ok 1 ∧ isSquare (-9) 5 11 = .ok 0 ∧
    ∃ r : Int, isSquare (-9) ((((11 : Nat) : Int) - 1) / 2) ((11 : Nat) : Int) = .ok r ∧
      (r = 1 ∨ r = 0) ∧
      (r = 1 ↔ ∃ s : Int, (s * s) % ((11 : Nat) : Int) = (-9) % ((11 : Nat) : Int)) ∧
      (r = 1 ↔ ((-9) ^ ((11 - 1) / 2) % ((11 : Nat) : Int) = 0 ∨
        (-9) ^ ((11 - 1) / 2) % ((11 : Nat) : Int) = 1)) :=
  ⟨by norm_num, by decide, by decide, isSquare_spec 11 (by norm_num) (by decide) (-9)⟩

/-- C15. sqrt computes a modular square root: for every prime `p = 3 (mod 4)`,
`exp = (p+1)/4` and every integer `x`, `y = sqrt(x, exp, p)` lies in `[0, p)`;
`y*y = x (mod p)` when `x` is a square modulo `p`, and `y*y = -x (mod p)` when it
is not. -/
theorem sqrt_spec (p : Nat) (hp : p.Prime) (h34 : p % 4 = 3) (x : Int) :
    ∃ y : Int, sqrt x (((p : Int) + 1) / 4) p = .ok y ∧ 0 ≤ y ∧ y < (p : Int) ∧
      ((∃ s : Int, (s * s) % (p : Int) = x % (p : Int)) →
        (y * y) % (p : Int) = x % (p : Int)) ∧
      ((¬ ∃ s : Int, (s * s) % (p : Int) = x % (p : Int)) →
        (y * y) % (p : Int) = (-x) % (p : Int)) := by
  obtain ⟨y, hy, h0, h1, -, hs, hn⟩ := sqrt_ok p hp h34 x
  refine ⟨y, hy, h0, h1, fun h => ?_, fun h => ?_⟩
  · apply (ZMod.intCast_eq_intCast_iff _ _ p).mp
    push_cast
    exact hs ((isSquare_zmod_iff p x).mpr h)
  · apply (ZMod.intCast_eq_intCast_iff _ _ p).mp
    push_cast
    exact hn (fun hsq => h ((isSquare_zmod_iff p x).mp hsq))

/-- Witness of C15 in the field of 11 elements: the square 3 has the root 5,
and the non-square 2 is sent to 8, whose square is -2. -/
theorem sqrt_spec_witness :
    Nat.Prime 11 ∧ 11 % 4 = 3 ∧ sqrt 3 3 11 = .ok 5 ∧ sqrt 2 3 11 = .ok 8 ∧
    (∃ s : Int, (s * s) % ((11 : Nat) : Int) = 3 % ((11 : Nat) : Int)) ∧
    (¬ ∃ s : Int, (s * s) % ((11 : Nat) : Int) = 2 % ((11 : Nat) : Int)) ∧
    (∃ y : Int, sqrt 3 ((((11 : Nat) : Int) + 1) / 4) ((11 : Nat) : Int) = .ok y ∧ 0 ≤ y ∧
      y < ((11 : Nat) : Int) ∧
      ((∃ s : Int, (s * s) % ((11 : Nat) : Int) = 3 % ((11 : Nat) : Int)) →
        (y * y) % ((11 : Nat) : Int) = 3 % ((11 : Nat) : Int)) ∧
      ((¬ ∃ s : Int, (s * s) % ((11 : Nat) : Int) = 3 % ((11 : Nat) : Int)) →
        (y * y) % ((11 : Nat) : Int) = (-3) % ((11 : Nat) : Int))) :=
  ⟨by norm_num, by decide, by decide, by decide, ⟨5, by decide⟩,
    not_square_of_forall_lt 11 (by decide) 2 (by decide),
    sqrt_spec 11 (by norm_num) (by decide) 3⟩

/-- C16. The SSWU mapping lands on the curve: for a prime `p = 3 (mod 4)`, `A`
nonzero modulo `p`, `Z` a non-square modulo `p`, `g(B/(Z*A))` a square, the
exponents `(p-1)/2` and `(p+1)/4`, and every single field element `u`, the
candidate `(x, y)` of sswu satisfies `y² = x³ + A*x + B (mod p)`, where `x` is
`x1` when `g(x1)` is a square and `Z*u²*x1` otherwise; with the curve equation
as validity test sswu returns the reduced point without error. -/
theorem sswu_lands_on_curve (p : Nat) (hp : p.Prime) (h34 : p % 4 = 3) (params : h2cParams)
    (hpp : params.p = (p : Int)) (hA : params.a % (p : Int) ≠ 0)
    (hZ : ¬ ∃ r : Int, (r * r) % (p : Int) = params.z % (p : Int))
    (hg : ∃ x0 r : Int, (params.z * params.a * x0) % (p : Int) = params.b % (p : Int) ∧
      (r * r) % (p : Int) = (x0 ^ 3 + params.a * x0 + params.b) % (p : Int))
    (hsq : params.isSqExp = ((p : Int) - 1) / 2) (hrt : params.sqrtExp = ((p : Int) + 1) / 4)
    (u : Int) :
    ∃ t1 t2 x1 x y : Int, sswuX1 params u = .ok (t1, t2, x1) ∧
      sswuXY params u = .ok (x, y) ∧
      (y * y) % (p : Int) = (x ^ 3 + params.a * x + params.b) % (p : Int) ∧
      ((∃ r : Int, (r * r) % (p : Int) = (x1 ^ 3 + params.a * x1 + params.b) % (p : Int)) →
        x % (p : Int) = x1 % (p : Int)) ∧
      ((¬ ∃ r : Int, (r * r) % (p : Int) = (x1 ^ 3 + params.a * x1 + params.b) % (p : Int)) →
        x % (p : Int) = (params.z * u ^ 2 * x1) % (p : Int)) ∧
      params.sswu (curveEquation params) [u]
        = .ok ({ pog := some params.gc, X := some (x % (p : Int)),
                 Y := some (y % (p : Int)) }, none) := by
  haveI := Fact.mk hp
  have hp0 : (p : Int) ≠ 0 := by exact_mod_cast hp.ne_zero
  have hA0 : ((params.a : Int) : ZMod p) ≠ 0 := intCast_ne_zero_of_emod p _ hA
  have hZns : ¬ IsSquare ((params.z : Int) : ZMod p) := fun h =>
    hZ ((isSquare_zmod_iff p _).mp h)
  have hZ0 : ((params.z : Int) : ZMod p) ≠ 0 := by
    intro h; apply hZns; rw [h]; exact isSquare_zero
  have hg2 : ∀ x0 : ZMod p,
      (params.z : ZMod p) * (params.a : ZMod p) * x0 = (params.b : ZMod p) →
      IsSquare (x0 ^ 3 + (params.a : ZMod p) * x0 + (params.b : ZMod p)) := by
    obtain ⟨x0, r, h1, h2⟩ := hg
    intro y0 hy0
    have h1c : (params.z : ZMod p) * (params.a : ZMod p) * (x0 : ZMod p) = (params.b : ZMod p) := by
      have := (ZMod.intCast_eq_intCast_iff _ _ p).mpr h1
      push_cast at this; exact this
    have hxy : y0 = (x0 : ZMod p) :=
      mul_left_cancel₀ (mul_ne_zero hZ0 hA0) (hy0.trans h1c.symm)
    rw [hxy]
    have hsqi := (isSquare_zmod_iff p (x0 ^ 3 + params.a * x0 + params.b)).mpr ⟨r, h2⟩
    push_cast at hsqi
    exact hsqi
  obtain ⟨t1, t2, x1, x, y, hX1, hXY, hcurve, hsel1, hsel2⟩ :=
    sswuXY_ok p h34 params hpp hA0 hZns hg2 hsq hrt u
  have hcast : ∀ a b : Int, ((a : Int) : ZMod p) = ((b : Int) : ZMod p) →
      a % (p : Int) = b % (p : Int) := fun a b h =>
    (ZMod.intCast_eq_intCast_iff a b p).mp h
  have hgx1 : IsSquare ((x1 : ZMod p) ^ 3 + (params.a : ZMod p) * (x1 : ZMod p)
      + (params.b : ZMod p)) ↔
      ∃ r : Int, (r * r) % (p : Int) = (x1 ^ 3 + params.a * x1 + params.b) % (p : Int) := by
    rw [← isSquare_zmod_iff]; push_cast; rfl
  have hcurveI : (y * y) % (p : Int) = (x ^ 3 + params.a * x + params.b) % (p : Int) := by
    apply hcast; push_cast; exact hcurve
  refine ⟨t1, t2, x1, x, y, hX1, hXY, hcurveI, ?_, ?_, ?_⟩
  · intro h
    apply hcast
    exact hsel1 (hgx1.mpr h)
  · intro h
    apply hcast
    push_cast
    exact hsel2 (fun hs => h (hgx1.mp hs))
  · have hval : curveEquation params
        (Point.mk (some params.gc) (some (x % (p : Int))) (some (y % (p : Int)))) = true := by
      unfold curveEquation
      simp only [decide_eq_true_eq, hpp]
      apply hcast
      simp only [Int.cast_add, Int.cast_mul, ZMod.intCast_mod]
      rw [hcurve]; ring
    rw [sswu_single _ params u x y hXY (by rw [hpp]; exact hp0), hpp, hval]
    rfl

/-- Witness of C16 on the curve `y² = x³ + x + 6` over the field of 11
elements with `Z = -9`: `g(B/(Z*A)) = g(3) = 3` is the square of 5, and `u = 1`
gives the unreduced candidate `(-135, 3)`. -/
theorem sswu_lands_on_curve_witness :
    Nat.Prime 11 ∧ toyParams.p = ((11 : Nat) : Int) ∧
    (¬ ∃ r : Int, (r * r) % ((11 : Nat) : Int) = toyParams.z % ((11 : Nat) : Int)) ∧
    toyParams.sswu (curveEquation toyParams) [3]
      = .ok (Point.mk (some ⟨"P-384"⟩) (some 10) (some 9), none) ∧
    sswuXY toyParams 1 = .ok (-135, 3) ∧
    ∃ t1 t2 x1 x y : Int, sswuX1 toyParams 1 = .ok (t1, t2, x1) ∧
      sswuXY toyParams 1 = .ok (x, y) ∧
      (y * y) % ((11 : Nat) : Int) = (x ^ 3 + toyParams.a * x + toyParams.b) % ((11 : Nat) : Int) ∧
      ((∃ r : Int, (r * r) % ((11 : Nat) : Int)
          = (x1 ^ 3 + toyParams.a * x1 + toyParams.b) % ((11 : Nat) : Int)) →
        x % ((11 : Nat) : Int) = x1 % ((11 : Nat) : Int)) ∧
      ((¬ ∃ r : Int, (r * r) % ((11 : Nat) : Int)
          = (x1 ^ 3 + toyParams.a * x1 + toyParams.b) % ((11 : Nat) : Int)) →
        x % ((11 : Nat) : Int) = (toyParams.z * 1 ^ 2 * x1) % ((11 : Nat) : Int)) ∧
      toyParams.sswu (curveEquation toyParams) [1]
        = .ok ({ pog := some toyParams.gc, X := some (x % ((11 : Nat) : Int)),
                 Y := some (y % ((11 : Nat) : Int)) }, none) :=
  ⟨by norm_num, rfl, not_square_of_forall_lt 11 (by decide) _ (by decide), by decide, by decide,
    sswu_lands_on_curve 11 (by norm_num) (by decide) toyParams rfl (by decide)
      (not_square_of_forall_lt 11 (by decide) _ (by decide)) ⟨3, 5, by decide, by decide⟩
      rfl rfl 1⟩

/-- C17, the code at the failing input: elligator2 sets `t1` to 0 only when
`Z*u²` equals -1 as an integer. For `p = 11`, `Z = -1`, `A = 2`, `B = 1` both
`u = 1` and `u = 10` have `Z*u² = -1` in the field; for `u = 1` the case is
taken, `x1 = -A` and the point is `(9, 3)`; for `u = 10` the integer
`Z*u² = -100` is left unchanged, `x1` is the inverse-of-zero value 0 instead
of `-A`, and the point returned is `(0, 0)`. -/
theorem elligator2_exceptional_case :
    (∀ (params : h2cParams) (u : Int),
      (elligator2X1 params u).1
        = if params.z * (u * u) = -1 then 0 else params.z * (u * u)) ∧
    ((toyEllParams.z * 1 ^ 2) % toyEllParams.p = (-1) % toyEllParams.p ∧
      elligator2X1 toyEllParams 1 = (0, -toyEllParams.a) ∧
      toyEllParams.elligator2 (toyMontgomery toyEllParams) [1]
        = .ok (Point.mk (some ⟨"curve448"⟩) (some 9) (some 3), none)) ∧
    ((toyEllParams.z * 10 ^ 2) % toyEllParams.p = (-1) % toyEllParams.p ∧
      elligator2X1 toyEllParams 10 = (-100, 0) ∧
      (0 : Int) % toyEllParams.p ≠ (-toyEllParams.a) % toyEllParams.p ∧
      toyEllParams.elligator2 (toyMontgomery toyEllParams) [10]
        = .ok (Point.mk (some ⟨"curve448"⟩) (some 0) (some 0), none)) := by
  refine ⟨fun params u => ?_, ⟨by decide, by decide, by decide⟩,
    ⟨by decide, by decide, by decide, by decide⟩⟩
  unfold elligator2X1 EqualsToBigInt
  simp only
  split
  · rw [Cmov_one]
  · rw [Cmov_zero]

/-- C18. What Finalize returns: for every client, verifiable or not, the
error of `N.Serialize()` when the serialization fails, and otherwise
`y = aux ++ MAC(key = dk, message = empty)` with
`dk = Serialize(N) ++ MAC(key = "oprf_derive_output", message = x)`, the MAC
being the keyed hash of the ciphersuite; `aux` is a prefix of `y`, the length
of `y` is the length of `aux` plus the digest length, and the keyed hash
enters only through its values on the messages `x` and empty, so neither
`Serialize(N)` nor `aux` is message data. -/
theorem Finalize_bytes [GroupElement G] (c : Client G R) (N : G) (x aux : Bytes) :
    (∀ err, GroupElement.Serialize N = .error err → c.Finalize N x aux = .error err) ∧
    (∀ NBytes, GroupElement.Serialize N = .ok NBytes →
      c.Finalize N x aux
        = .ok (aux ++ KeyedHash c.ciph (NBytes ++ KeyedHash c.ciph DST x) []) ∧
      (∃ y, c.Finalize N x aux = .ok y ∧ aux <+: y ∧
        y.length = aux.length
          + (KeyedHash c.ciph (NBytes ++ KeyedHash c.ciph DST x) []).length) ∧
      (∀ c2 : Client G R,
        (∀ key, KeyedHash c2.ciph key x = KeyedHash c.ciph key x) →
        (∀ key, KeyedHash c2.ciph key [] = KeyedHash c.ciph key []) →
        c2.Finalize N x aux = c.Finalize N x aux)) := by
  have key : ∀ (d : Client G R) (NBytes : Bytes), GroupElement.Serialize N = .ok NBytes →
      d.Finalize N x aux
        = .ok (aux ++ KeyedHash d.ciph (NBytes ++ KeyedHash d.ciph DST x) []) := by
    intro d NBytes h
    unfold Client.Finalize KeyedHash Hash.Sum Hash.Write
    simp only [h, List.nil_append, List.append_nil]
  refine ⟨fun err h => ?_, fun NBytes h => ⟨key c NBytes h, ?_, ?_⟩⟩
  · unfold Client.Finalize; simp only [h]
  · exact ⟨_, key c NBytes h, List.prefix_append _ _, List.length_append _ _⟩
  · intro c2 h1 h2
    rw [key c NBytes h, key c2 NBytes h, h1, h2]

/-- Witness of C18 on the toy ciphersuite. -/
theorem Finalize_bytes_witness :
    (GroupElement.Serialize (⟨9⟩ : Z7) = .error .ErrInvalidGroupElement ∧
      (toyClient true).Finalize (⟨9⟩ : Z7) [1] [2] = .error .ErrInvalidGroupElement) ∧
    (GroupElement.Serialize (⟨3⟩ : Z7) = .ok [3] ∧
      KeyedHash (toyClient true).ciph DST [1] = [194] ∧
      KeyedHash (toyClient true).ciph [3, 194] [] = [64] ∧
      (toyClient true).Finalize (⟨3⟩ : Z7) [1] [2]
        = .ok ([2] ++ KeyedHash (toyClient true).ciph
            ([3] ++ KeyedHash (toyClient true).ciph DST [1]) []) ∧
      (toyClient false).Finalize (⟨3⟩ : Z7) [1] [2]
        = (toyClient true).Finalize (⟨3⟩ : Z7) [1] [2]) :=
  ⟨⟨rfl, (Finalize_bytes (toyClient true) (⟨9⟩ : Z7) [1] [2]).1 _ rfl⟩,
    ⟨rfl, by decide, by decide,
      ((Finalize_bytes (toyClient true) (⟨3⟩ : Z7) [1] [2]).2 [3] rfl).1,
      ((Finalize_bytes (toyClient true) (⟨3⟩ : Z7) [1] [2]).2 [3] rfl).2.2 (toyClient false)
        (fun _ => rfl) (fun _ => rfl)⟩⟩

/-- C19. Mapped coordinates are canonical residues: for every modulus `p > 0`
and every single field element `u` on which sswu or elligator2 returns a
point, the X and Y of the point lie in `[0, p)`. -/
theorem mapped_coordinates_canonical (IsValid : Point → Bool) (params : h2cParams)
    (hp : 0 < params.p) (u : Int) (P : Point) :
    (params.sswu IsValid [u] = .ok (P, none) →
      ∃ X Y : Int, P.X = some X ∧ P.Y = some Y ∧ 0 ≤ X ∧ X < params.p ∧ 0 ≤ Y ∧
        Y < params.p) ∧
    (params.elligator2 IsValid [u] = .ok (P, none) →
      ∃ X Y : Int, P.X = some X ∧ P.Y = some Y ∧ 0 ≤ X ∧ X < params.p ∧ 0 ≤ Y ∧
        Y < params.p) := by
  have hp0 : params.p ≠ 0 := by omega
  constructor
  · intro h
    cases hXY : sswuXY params u with
    | error e => rw [sswu_error IsValid params u e hXY] at h; cases h
    | ok xy =>
      obtain ⟨x, y⟩ := xy
      rw [sswu_single IsValid params u x y hXY hp0] at h
      exact point_in_range params hp IsValid x y P h
  · intro h
    cases hXY : elligator2XY params u with
    | error e => rw [elligator2_error IsValid params u e hXY] at h; cases h
    | ok xy =>
      obtain ⟨x, y⟩ := xy
      rw [elligator2_single IsValid params u x y hXY hp0] at h
      exact point_in_range params hp IsValid x y P h

/-- Witness of C19 in the field of 11 elements: the unreduced candidates
`(-135, 3)` of sswu and `(-8, 9)` of elligator2 are returned as `(8, 3)` and
`(3, 9)`. -/
theorem mapped_coordinates_canonical_witness :
    sswuXY toyParams 1 = .ok (-135, 3) ∧
    toyParams.sswu (curveEquation toyParams) [1]
      = .ok (Point.mk (some ⟨"P-384"⟩) (some 8) (some 3), none) ∧
    elligator2XY toyEllParams 3 = .ok (-8, 9) ∧
    toyEllParams.elligator2 (toyMontgomery toyEllParams) [3]
      = .ok (Point.mk (some ⟨"curve448"⟩) (some 3) (some 9), none) ∧
    (∃ X Y : Int, (Point.mk (some ⟨"P-384"⟩) (some 8) (some 3)).X = some X ∧
      (Point.mk (some ⟨"P-384"⟩) (some 8) (some 3)).Y = some Y ∧
      0 ≤ X ∧ X < toyParams.p ∧ 0 ≤ Y ∧ Y < toyParams.p) ∧
    (∃ X Y : Int, (Point.mk (some ⟨"curve448"⟩) (some 3) (some 9)).X = some X ∧
      (Point.mk (some ⟨"curve448"⟩) (some 3) (some 9)).Y = some Y ∧
      0 ≤ X ∧ X < toyEllParams.p ∧ 0 ≤ Y ∧ Y < toyEllParams.p) :=
  ⟨by decide, by decide, by decide, by decide,
    (mapped_coordinates_canonical (curveEquation toyParams) toyParams (by decide) 1
      (Point.mk (some ⟨"P-384"⟩) (some 8) (some 3))).1 (by decide),
    (mapped_coordinates_canonical (toyMontgomery toyEllParams) toyEllParams (by decide) 3
      (Point.mk (some ⟨"curve448"⟩) (some 3) (some 9))).2 (by decide)⟩

end OPRF
